import Mathlib

/-!
Verification development for the digital-chuckram blockchain node.

The definitions below are a shallow embedding of the TypeScript sources:

* `StateManager` — apps/blockchain-node/src/app/blockchain/state-manager.service.ts
* `BlockchainService` — apps/blockchain-node/src/app/blockchain/blockchain.service.ts
* `MempoolService` — apps/blockchain-node/src/app/mempool/mempool.service.ts
* `P2PNetwork` — libs/core/p2p/src/lib/p2p.ts
* `ConsensusEngine` — libs/core/consensus/src/lib/consensus.ts

Modelling conventions:
* JavaScript `Map` objects become insertion-ordered association lists
  (`List (κ × α)`) with `getA` / `setA` / `eraseA` / `hasA` mirroring
  `get` / `set` / `delete` / `has`.
* `bigint` monetary values become `Int`; `number` block heights,
  timestamps and counters become `Nat` (`Int` where a JS subtraction can
  go negative); JS floating-point ratio arithmetic on small validator
  counts becomes exact `ℚ` (the margins involved are far wider than
  double rounding, see the consensus theorems).
* `Number(bigint)` — the lossy double conversion used by the mempool fee
  comparator — is modelled exactly on integers by `jsNumberOfInt`
  (round-to-nearest-even at 53 significant bits).
* SHA-256 is cryptography, not arithmetic: it is threaded through the
  ledger as an opaque parameter `hashFn : String → String`, and message
  signing as `sign : String → String → String`.
* In-place mutation that survives a thrown exception is modelled by
  returning the post-mutation state next to an `Except`/`Option` error.
* JS `Array.prototype.sort` (stable) is modelled by `List.insertionSort`.
* The `onBlockFinalized` callback of the consensus engine is observed in
  the `finalized` field, which records the hashes it was invoked with.
-/

/-- JS `Map.get`: first binding of the key, if any. -/
def getA [DecidableEq κ] : List (κ × α) → κ → Option α
  | [], _ => none
  | (k0, v0) :: rest, k => if k0 = k then some v0 else getA rest k

/-- JS `Map.set`: replace in place if the key is bound, else append. -/
def setA [DecidableEq κ] : List (κ × α) → κ → α → List (κ × α)
  | [], k, v => [(k, v)]
  | (k0, v0) :: rest, k, v =>
    if k0 = k then (k, v) :: rest else (k0, v0) :: setA rest k v

/-- JS `Map.delete`: drop the binding of the key. -/
def eraseA [DecidableEq κ] : List (κ × α) → κ → List (κ × α)
  | [], _ => []
  | (k0, v0) :: rest, k =>
    if k0 = k then rest else (k0, v0) :: eraseA rest k

/-- JS `Map.has`. -/
def hasA [DecidableEq κ] (m : List (κ × α)) (k : κ) : Bool :=
  (getA m k).isSome

deriving instance DecidableEq for Except

/-- `'0'.repeat(40)` — the reserved system / fee-collection address. -/
def systemAddress : String := String.mk (List.replicate 40 '0')

/-- `'0'.repeat(64)` — the all-zero hash used by genesis and empty Merkle roots. -/
def zeroHash : String := String.mk (List.replicate 64 '0')

/-- Payload of a VALIDATOR_REGISTRATION transaction (`tx.data`). -/
structure VRegData where
  validatorType : String
  stake : Option Int
  deriving DecidableEq, Repr

/-- A transaction.  Monetary fields are exact integers (`bigint` in the
source; the `BigInt(x)` conversions of the string wire form are identity
here).  The source field `type` is `txType` and `from`/`to` are
`fromAddr`/`toAddr` (Lean keywords). -/
structure Tx where
  id : String
  txType : String
  fromAddr : String
  toAddr : String
  amount : Int
  fee : Int
  timestamp : Nat
  nonce : Nat
  data : Option VRegData
  deriving DecidableEq, Repr

/-- Validator registry entry kept by the `StateManager` (its `stake` is
stored stringified in the source; the integer value is kept here). -/
structure SmValidator where
  address : String
  vtype : String
  stake : Int
  registeredAt : Nat
  active : Bool
  lastActiveBlock : Nat
  deriving DecidableEq, Repr

/-- Mutable state of `StateManager`. -/
structure SmState where
  balances : List (String × Int)
  validators : List (String × SmValidator)
  nonces : List (String × Nat)
  chainHeight : Nat
  lastBlockHash : Option String
  deriving DecidableEq, Repr

namespace StateManager

/-- `getBalance`: `this.balances.get(address) || 0n`. -/
def getBalance (st : SmState) (address : String) : Int :=
  (getA st.balances address).getD 0

/-- `setBalance`. -/
def setBalance (st : SmState) (address : String) (balance : Int) : SmState :=
  { st with balances := setA st.balances address balance }

/-- `getNonce`: `this.nonces.get(address) || 0`. -/
def getNonce (st : SmState) (address : String) : Nat :=
  (getA st.nonces address).getD 0

/-- `applyTransferTransaction`: debit sender by amount+fee after a balance
check, credit recipient by amount, credit the system address by the fee
when it is positive.  A failed balance check throws before any mutation. -/
def applyTransferTransaction (st : SmState) (tx : Tx) : Except String SmState :=
  let amountValue := tx.amount
  let feeValue := tx.fee
  let totalDebit := amountValue + feeValue
  let senderBalance := getBalance st tx.fromAddr
  if senderBalance < totalDebit then
    Except.error "Insufficient balance"
  else
    let st1 := setBalance st tx.fromAddr (senderBalance - totalDebit)
    let recipientBalance := getBalance st1 tx.toAddr
    let st2 := setBalance st1 tx.toAddr (recipientBalance + amountValue)
    if feeValue > 0 then
      let systemBalance := getBalance st2 systemAddress
      Except.ok (setBalance st2 systemAddress (systemBalance + feeValue))
    else
      Except.ok st2

/-- `applyMintTransaction`: credit recipient only. -/
def applyMintTransaction (st : SmState) (tx : Tx) : Except String SmState :=
  let recipientBalance := getBalance st tx.toAddr
  Except.ok (setBalance st tx.toAddr (recipientBalance + tx.amount))

/-- `applyBurnTransaction`: debit sender by amount+fee, credit system by
the fee; the burned principal has no recipient. -/
def applyBurnTransaction (st : SmState) (tx : Tx) : Except String SmState :=
  let totalDebit := tx.amount + tx.fee
  let senderBalance := getBalance st tx.fromAddr
  if senderBalance < totalDebit then
    Except.error "Insufficient balance"
  else
    let st1 := setBalance st tx.fromAddr (senderBalance - totalDebit)
    if tx.fee > 0 then
      let systemBalance := getBalance st1 systemAddress
      Except.ok (setBalance st1 systemAddress (systemBalance + tx.fee))
    else
      Except.ok st1

/-- `applyValidatorRegistration`: debit fee+stake, credit system by the
fee, insert/update the registry entry.  A missing `tx.data` throws (the
source destructures `data` unconditionally). -/
def applyValidatorRegistration (st : SmState) (tx : Tx) : Except String SmState :=
  match tx.data with
  | none => Except.error "Cannot destructure data"
  | some d =>
    let feeValue := tx.fee
    let stakeValue := d.stake.getD 0
    let totalDebit := feeValue + stakeValue
    let senderBalance := getBalance st tx.fromAddr
    if senderBalance < totalDebit then
      Except.error "Insufficient balance"
    else
      let st1 := setBalance st tx.fromAddr (senderBalance - totalDebit)
      let st2 :=
        if feeValue > 0 then
          setBalance st1 systemAddress (getBalance st1 systemAddress + feeValue)
        else st1
      Except.ok { st2 with
        validators := setA st2.validators tx.fromAddr
          { address := tx.fromAddr
            vtype := d.validatorType
            stake := stakeValue
            registeredAt := tx.timestamp
            active := true
            lastActiveBlock := st2.chainHeight } }

/-- `applyRewardTransaction`: credit recipient only. -/
def applyRewardTransaction (st : SmState) (tx : Tx) : Except String SmState :=
  let recipientBalance := getBalance st tx.toAddr
  Except.ok (setBalance st tx.toAddr (recipientBalance + tx.amount))

/-- `applyTransaction`: dispatch on the transaction type, then advance the
sender nonce to `max(current, tx.nonce + 1)` unless the sender is the
system address. -/
def applyTransaction (st : SmState) (tx : Tx) : Except String SmState := do
  let st1 ←
    if tx.txType = "TRANSFER" then applyTransferTransaction st tx
    else if tx.txType = "MINT" then applyMintTransaction st tx
    else if tx.txType = "BURN" then applyBurnTransaction st tx
    else if tx.txType = "VALIDATOR_REGISTRATION" then applyValidatorRegistration st tx
    else if tx.txType = "REWARD" then applyRewardTransaction st tx
    else Except.error "Unsupported transaction type"
  if tx.fromAddr = systemAddress then
    pure st1
  else
    let currentNonce := (getA st1.nonces tx.fromAddr).getD 0
    pure { st1 with
      nonces := setA st1.nonces tx.fromAddr (max currentNonce (tx.nonce + 1)) }

/-- The transaction loop of `applyBlock`: transactions are applied in
order by in-place mutation, so when one throws, the effects of the
earlier ones remain in the returned state. -/
def applyTxList : SmState → List Tx → SmState × Option String
  | st, [] => (st, none)
  | st, tx :: rest =>
    match applyTransaction st tx with
    | Except.ok st1 => applyTxList st1 rest
    | Except.error e => (st, some e)

end StateManager

/-- Block header (see §3 of the design and `blockchain.types.ts`). -/
structure BlockHeader where
  version : Nat
  previousHash : String
  merkleRoot : String
  timestamp : Nat
  height : Nat
  validatorAddress : String
  deriving DecidableEq, Repr

/-- A block. -/
structure Block where
  header : BlockHeader
  transactions : List Tx
  hash : String
  nonce : Nat
  deriving DecidableEq, Repr

/-- `applyBlock` of the `StateManager`: apply every transaction in order,
then record the new chain height and head hash.  A throw inside the loop
is logged and re-thrown with the partial mutations retained; the height
update lines are skipped in that case. -/
def StateManager.applyBlock (st : SmState) (b : Block) : SmState × Option String :=
  match StateManager.applyTxList st b.transactions with
  | (st1, none) =>
    ({ st1 with chainHeight := b.header.height, lastBlockHash := some b.hash }, none)
  | (st1, some e) => (st1, some e)

/-- Combined mutable state of `BlockchainService` together with the
`StateManager` it drives (`sm`). -/
structure BcState where
  blocks : List (String × Block)
  blocksByHeight : List (Nat × String)
  chainHeight : Nat
  lastBlockHash : Option String
  sm : SmState
  deriving DecidableEq, Repr

namespace BlockchainService

/-- `calculateBlockHash`: hash of the template-string concatenation of the
fixed-order header fields and the block nonce.  `hashFn` stands for the
hex-encoded SHA-256. -/
def calculateBlockHash (hashFn : String → String) (b : Block) : String :=
  hashFn (Nat.repr b.header.version ++ b.header.previousHash ++
    b.header.merkleRoot ++ Nat.repr b.header.timestamp ++
    Nat.repr b.header.height ++ b.header.validatorAddress ++ Nat.repr b.nonce)

/-- `calculateMerkleRoot` (simplified in the source): all-zero hash for an
empty list, else the hash of the concatenated transaction ids. -/
def calculateMerkleRoot (hashFn : String → String) (txs : List Tx) : String :=
  if txs.length = 0 then zeroHash
  else hashFn (String.join (txs.map Tx.id))

/-- `getBlockByHeight`: height index lookup followed by hash lookup. -/
def getBlockByHeight (st : BcState) (height : Nat) : Option Block :=
  match getA st.blocksByHeight height with
  | none => none
  | some h => getA st.blocks h

/-- `validateGenesisBlock`: height 0 and the all-zero previous hash; the
validator address is not inspected and no previous-block lookup happens. -/
def validateGenesisBlock (b : Block) : Bool :=
  b.header.height == 0 && b.header.previousHash == zeroHash

/-- `validateTransaction` of `BlockchainService` (simplified in the
source): always true. -/
def validateTransaction (_tx : Tx) : Bool := true

/-- `validateBlock`: structural check (`!block.hash` is the only check
that can fail on typed data), hash recomputation, then either the genesis
check (height 0) or the previous-block chain checks. -/
def validateBlock (hashFn : String → String) (st : BcState) (b : Block) : Bool :=
  if b.hash = "" then false
  else if calculateBlockHash hashFn b ≠ b.hash then false
  else if b.header.height = 0 then validateGenesisBlock b
  else
    match getBlockByHeight st (b.header.height - 1) with
    | none => false
    | some prevBlock =>
      if prevBlock.hash ≠ b.header.previousHash then false
      else if b.header.height ≠ prevBlock.header.height + 1 then false
      else if ¬ (prevBlock.header.timestamp < b.header.timestamp) then false
      else if calculateMerkleRoot hashFn b.transactions ≠ b.header.merkleRoot then false
      else b.transactions.all validateTransaction

/-- `addBlock`: no-op (false) when the hash is already indexed, reject
(false) when validation fails; otherwise index by hash and by height and
— only when the height exceeds the current chain height — advance the
head and apply the state transition.  A throw from `applyBlock`
propagates with all mutations made so far retained. -/
def addBlock (hashFn : String → String) (st : BcState) (b : Block) :
    BcState × Except String Bool :=
  if hasA st.blocks b.hash then (st, Except.ok false)
  else if ¬ validateBlock hashFn st b then (st, Except.ok false)
  else
    let st1 := { st with
      blocks := setA st.blocks b.hash b
      blocksByHeight := setA st.blocksByHeight b.header.height b.hash }
    if st1.chainHeight < b.header.height then
      let st2 := { st1 with
        chainHeight := b.header.height, lastBlockHash := some b.hash }
      match StateManager.applyBlock st2.sm b with
      | (sm1, some e) => ({ st2 with sm := sm1 }, Except.error e)
      | (sm1, none) => ({ st2 with sm := sm1 }, Except.ok true)
    else (st1, Except.ok true)

end BlockchainService

/-- Mempool state: pending transactions indexed by id, in insertion
order.  (The admission timestamp and the per-sender index only feed the
expiry sweep and the admission limits, which are not needed here.) -/
structure MpState where
  pendingTransactions : List (String × Tx)
  deriving DecidableEq, Repr

namespace MempoolService

/-- Round-to-nearest-even of a natural number at 53 significant bits:
the value of the IEEE-754 double produced by JS `Number(bigint)` (exact
for magnitudes below 2^1024). -/
def jsNumberOfNat (n : Nat) : Nat :=
  if n < 2 ^ 53 then n
  else
    let k := Nat.log2 n - 52
    let q := n / 2 ^ k
    let r := n % 2 ^ k
    if 2 * r > 2 ^ k ∨ (2 * r = 2 ^ k ∧ q % 2 = 1) then (q + 1) * 2 ^ k
    else q * 2 ^ k

/-- JS `Number()` of an exact integer. -/
def jsNumberOfInt : Int → Int
  | Int.ofNat n => Int.ofNat (jsNumberOfNat n)
  | Int.negSucc m => - Int.ofNat (jsNumberOfNat (m + 1))

/-- The sort relation induced by the comparator
`(a, b) => Number(b.fee) - Number(a.fee)`: `a` precedes (or ties) `b`
exactly when the double value of `b`'s fee is at most that of `a`'s. -/
def feeOrd (a b : Tx) : Prop := jsNumberOfInt b.fee ≤ jsNumberOfInt a.fee

instance : DecidableRel feeOrd := fun a b =>
  inferInstanceAs (Decidable (jsNumberOfInt b.fee ≤ jsNumberOfInt a.fee))

instance : IsTotal Tx feeOrd :=
  ⟨fun a b => Int.le_total (jsNumberOfInt b.fee) (jsNumberOfInt a.fee)⟩

instance : IsTrans Tx feeOrd :=
  ⟨fun _ _ _ hab hbc => le_trans hbc hab⟩

/-- `getAllTransactions`. -/
def getAllTransactions (st : MpState) : List Tx :=
  st.pendingTransactions.map Prod.snd

/-- `getTransactionsForBlock`: stable sort by descending `Number(fee)`,
then take the requested count. -/
def getTransactionsForBlock (st : MpState) (maxCount : Nat) : List Tx :=
  (List.insertionSort feeOrd (getAllTransactions st)).take maxCount

end MempoolService

/-- A peer record (`p2p.types.ts`). -/
structure Peer where
  id : String
  address : String
  port : Nat
  lastSeen : Nat
  version : String
  chainHeight : Nat
  deriving DecidableEq, Repr

/-- Network configuration (`p2p.types.ts`), seed peers omitted. -/
structure NetworkConfig where
  port : Nat
  maxPeers : Nat
  networkId : String
  version : String
  deriving DecidableEq, Repr

/-- HANDSHAKE payload. -/
structure HandshakePayload where
  version : String
  networkId : String
  chainHeight : Nat
  peerId : String
  deriving DecidableEq, Repr

/-- The websocket handle as `handleHandshake` sees it: outbound sockets
carry their dial url, inbound sockets have none. -/
structure WsConn where
  url : Option String
  deriving DecidableEq, Repr

/-- Observable side effects of a message handler. -/
inductive P2PAction where
  | close (code : Nat) (reason : String)
  | sendHandshake
  | requestPeerDiscovery
  deriving DecidableEq, Repr

/-- The two maps owned by `P2PNetwork`; connections map peer ids to
socket handles (abstracted to numbers). -/
structure P2PState where
  peers : List (String × Peer)
  connections : List (String × Nat)
  deriving DecidableEq, Repr

namespace P2PNetwork

/-- `handleHandshake`: close immediately on networkId mismatch (no map is
touched); otherwise build the peer record, swap the provisional id for
the real one in both maps, reply with our own handshake on inbound
connections and request peer discovery. -/
def handleHandshake (cfg : NetworkConfig) (now : Nat) (st : P2PState)
    (payload : HandshakePayload) (tempPeerId : String) (ws : WsConn) :
    P2PState × List P2PAction :=
  if payload.networkId ≠ cfg.networkId then
    (st, [P2PAction.close 1002 "Invalid network ID"])
  else
    let peer : Peer :=
      { id := payload.peerId
        address := ws.url.getD ""
        port := cfg.port
        lastSeen := now
        version := payload.version
        chainHeight := payload.chainHeight }
    let peers1 := setA (eraseA st.peers tempPeerId) peer.id peer
    let conns1 :=
      match getA st.connections tempPeerId with
      | some c => setA (eraseA st.connections tempPeerId) payload.peerId c
      | none => st.connections
    let acts :=
      (if ws.url = none then [P2PAction.sendHandshake] else []) ++
        [P2PAction.requestPeerDiscovery]
    ({ peers := peers1, connections := conns1 }, acts)

end P2PNetwork

/-- A consensus validator (`consensus.types.ts`); the source field `type`
is `vtype` here.  `votingPower` is a JS number used in exact sums and one
division; it is modelled as `ℚ`. -/
structure Validator where
  address : String
  vtype : String
  stake : Option Int
  votingPower : ℚ
  active : Bool
  lastActiveBlock : Nat
  registeredAt : Nat
  deriving DecidableEq, Repr

/-- Consensus configuration (`consensus.types.ts`). -/
structure ConsensusConfig where
  minValidators : Nat
  maxValidators : Nat
  blockTime : Nat
  governmentValidatorRatio : ℚ
  citizenValidatorRatio : ℚ
  requiredConsensus : ℚ
  validatorRotationInterval : Nat
  deriving DecidableEq, Repr

/-- A vote (`consensus.types.ts`). -/
structure Vote where
  validatorAddress : String
  blockHash : String
  blockHeight : Nat
  signature : String
  timestamp : Nat
  deriving DecidableEq, Repr

/-- `ConsensusState` (`consensus.types.ts`). -/
structure ConsensusState where
  currentValidators : List (String × Validator)
  pendingValidators : List (String × Validator)
  lastRotationBlock : Nat
  currentProposer : String
  round : Nat
  deriving DecidableEq, Repr

/-- The `ConsensusEngine` object: configuration, state, the per-hash vote
map, and the recorded invocations of the `onBlockFinalized` callback. -/
structure Engine where
  config : ConsensusConfig
  state : ConsensusState
  votes : List (String × List Vote)
  finalized : List String
  deriving DecidableEq, Repr

namespace ConsensusEngine

/-- `addValidator`: reject at the validator-count cap; otherwise count
government/citizen validators over current + pending + the candidate and
reject when the candidate type's ratio exceeds its target by more than
0.1; otherwise stage the candidate into the pending set. -/
def addValidator (e : Engine) (validator : Validator) : Engine × Bool :=
  let totalValidators :=
    e.state.currentValidators.length + e.state.pendingValidators.length
  if e.config.maxValidators ≤ totalValidators then (e, false)
  else
    let countTypes := fun (acc : Nat × Nat) (v : Validator) =>
      if v.vtype = "GOVERNMENT" then (acc.1 + 1, acc.2) else (acc.1, acc.2 + 1)
    let acc1 := e.state.currentValidators.foldl
      (fun acc p => countTypes acc p.2) (0, 0)
    let acc2 := e.state.pendingValidators.foldl
      (fun acc p => countTypes acc p.2) acc1
    let acc3 := countTypes acc2 validator
    let govCount := acc3.1
    let citizenCount := acc3.2
    let total := govCount + citizenCount
    let govRatio : ℚ := (govCount : ℚ) / (total : ℚ)
    let citizenRatio : ℚ := (citizenCount : ℚ) / (total : ℚ)
    let maxGovRatio := e.config.governmentValidatorRatio + 1/10
    let maxCitizenRatio := e.config.citizenValidatorRatio + 1/10
    if validator.vtype = "GOVERNMENT" ∧ govRatio > maxGovRatio then (e, false)
    else if validator.vtype = "CITIZEN" ∧ citizenRatio > maxCitizenRatio then
      (e, false)
    else
      ({ e with state := { e.state with
          pendingValidators :=
            setA e.state.pendingValidators validator.address validator } },
        true)

/-- `hasConsensus`: sum the voting power of current validators, collect
the power of those whose address appears among the distinct voters of the
block, and compare the ratio against `requiredConsensus - 0.0001`. -/
def hasConsensus (e : Engine) (blockHash : String) : Bool :=
  match getA e.votes blockHash with
  | none => false
  | some votes =>
    if votes.length = 0 then false
    else
      let uniqueVoters := votes.map Vote.validatorAddress
      let powers := e.state.currentValidators.foldl
        (fun (acc : ℚ × ℚ) p =>
          (acc.1 + p.2.votingPower,
            if p.2.address ∈ uniqueVoters then acc.2 + p.2.votingPower
            else acc.2))
        (0, 0)
      if powers.1 = 0 then false
      else decide (powers.2 / powers.1 ≥ e.config.requiredConsensus - 1/10000)

/-- `selectNextProposer`: active current validators sorted by address;
round-robin from the index of the current proposer (−1 when absent);
throws when there is no active validator. -/
def selectNextProposer (e : Engine) : Engine × Option String :=
  let validators :=
    List.insertionSort (fun a b : Validator => a.address ≤ b.address)
      ((e.state.currentValidators.map Prod.snd).filter (fun v => v.active))
  if validators.length = 0 then (e, some "No active validators")
  else
    let currentIndex : Int :=
      ((validators.findIdx?
          (fun v => v.address = e.state.currentProposer)).map Int.ofNat).getD
        (-1)
    let nextIndex := ((currentIndex + 1) % (validators.length : Int)).toNat
    let proposer := ((validators.get? nextIndex).map Validator.address).getD ""
    ({ e with state := { e.state with
        currentProposer := proposer, round := e.state.round + 1 } },
      none)

/-- `rotateValidators`: promote every pending validator into the current
map (overwriting an existing entry of the same address), clear the
pending map, evict current entries whose `lastActiveBlock` is more than
100 blocks behind, and record the rotation height. -/
def rotateValidators (e : Engine) (currentHeight : Nat) : Engine :=
  let current1 := e.state.pendingValidators.foldl
    (fun cur p => setA cur p.1 p.2) e.state.currentValidators
  let current2 := current1.filter
    (fun p => ¬ ((100 : Int) < (currentHeight : Int) - (p.2.lastActiveBlock : Int)))
  { e with state := { e.state with
      currentValidators := current2
      pendingValidators := []
      lastRotationBlock := currentHeight } }

/-- `finalizeBlock`: stamp `lastActiveBlock` on every current validator,
rotate when due, select the next proposer (whose failure propagates
before the callback), invoke the finalized callback, and discard the vote
set of the block hash. -/
def finalizeBlock (e : Engine) (block : Block) : Engine × Option String :=
  let current1 := e.state.currentValidators.map
    (fun p => (p.1, { p.2 with lastActiveBlock := block.header.height }))
  let e1 := { e with state := { e.state with currentValidators := current1 } }
  let e2 :=
    if (e1.config.validatorRotationInterval : Int) ≤
        (block.header.height : Int) - (e1.state.lastRotationBlock : Int) then
      rotateValidators e1 block.header.height
    else e1
  match selectNextProposer e2 with
  | (e3, some err) => (e3, some err)
  | (e3, none) =>
    let e4 := { e3 with finalized := e3.finalized ++ [block.hash] }
    ({ e4 with votes := eraseA e4.votes block.hash }, none)

/-- The vote built by `voteOnBlock` (`sign` stands for `CryptoUtils.sign`,
`now` for `Date.now()`). -/
def mkVote (sign : String → String → String) (now : Nat) (block : Block)
    (validatorAddress : String) (validatorPrivateKey : String) : Vote :=
  { validatorAddress := validatorAddress
    blockHash := block.hash
    blockHeight := block.header.height
    signature := sign validatorPrivateKey block.hash
    timestamp := now }

/-- `voteOnBlock`: reject non-current or inactive validators; record the
vote unless the validator already voted on this hash; then finalize when
the consensus predicate holds (the `votes.has` conjunct of the source is
vacuously true, the entry having just been created). -/
def voteOnBlock (sign : String → String → String) (now : Nat) (e : Engine)
    (block : Block) (validatorAddress : String) (validatorPrivateKey : String) :
    Engine × Except String Vote :=
  match getA e.state.currentValidators validatorAddress with
  | none => (e, Except.error "Invalid or inactive validator")
  | some validator =>
    if ¬ validator.active then (e, Except.error "Invalid or inactive validator")
    else
      let vote := mkVote sign now block validatorAddress validatorPrivateKey
      let votes0 :=
        if hasA e.votes block.hash then e.votes
        else setA e.votes block.hash []
      let blockVotes := (getA votes0 block.hash).getD []
      let blockVotes1 :=
        if blockVotes.any (fun v => v.validatorAddress = validatorAddress) then
          blockVotes
        else blockVotes ++ [vote]
      let e1 := { e with votes := setA votes0 block.hash blockVotes1 }
      if hasConsensus e1 block.hash ∧ hasA e1.votes block.hash then
        match finalizeBlock e1 block with
        | (e2, some err) => (e2, Except.error err)
        | (e2, none) => (e2, Except.ok vote)
      else (e1, Except.ok vote)

/-- A sequence of `voteOnBlock` calls for one block, keeping only the
engine (as the test suite does). -/
def runVotes (sign : String → String → String) (now : Nat) (e : Engine)
    (block : Block) (addrs : List String) (pk : String) : Engine :=
  addrs.foldl (fun acc a => (voteOnBlock sign now acc block a pk).1) e

end ConsensusEngine

namespace ConsensusEngine

/-- Addresses of the current validators of an engine. -/
def keysOf (e : Engine) : List String :=
  e.state.currentValidators.map Prod.fst

/-- The votes recorded for a block hash (empty when no entry exists). -/
def recordedVotes (e : Engine) (blockHash : String) : List Vote :=
  (getA e.votes blockHash).getD []

/-- The engine shape of the equal-power consensus scenarios: distinct
current validator addresses, every current validator active with voting
power 1 and a coherent address field, the 0.66 consensus requirement, no
pending validators, and a duplicate-free vote map. -/
structure GoodEngine (e : Engine) : Prop where
  keysNodup : (keysOf e).Nodup
  coherent : ∀ p ∈ e.state.currentValidators,
    p.2.votingPower = 1 ∧ p.2.active = true ∧ p.2.address = p.1
  required : e.config.requiredConsensus = 33/50
  pendingNil : e.state.pendingValidators = []
  votesKeysNodup : (e.votes.map Prod.fst).Nodup

end ConsensusEngine

/-- A concrete stand-in for hex-encoded SHA-256 in the executable test
cases (the theorems quantifying over `hashFn` do not depend on it). -/
def cHash (s : String) : String := String.append "H" s

/-- First transaction of the C1 scenario: a funded transfer. -/
def txFunded : Tx :=
  { id := "t1", txType := "TRANSFER", fromAddr := "A", toAddr := "B"
    amount := 100, fee := 0, timestamp := 0, nonce := 0, data := none }

/-- Second transaction of the C1 scenario: its sender has no balance. -/
def txBroke : Tx :=
  { id := "t2", txType := "TRANSFER", fromAddr := "C", toAddr := "D"
    amount := 50, fee := 0, timestamp := 0, nonce := 0, data := none }

/-- Genesis block before its hash field is filled in. -/
def gBare : Block :=
  { header :=
      { version := 1, previousHash := zeroHash
        merkleRoot := BlockchainService.calculateMerkleRoot cHash []
        timestamp := 1, height := 0, validatorAddress := "GEN" }
    transactions := [], hash := "", nonce := 0 }

/-- Genesis block with its correct hash. -/
def gBlk : Block :=
  { gBare with hash := BlockchainService.calculateBlockHash cHash gBare }

/-- Ledger state holding the genesis block and a single funded account. -/
def st0c : BcState :=
  { blocks := [(gBlk.hash, gBlk)]
    blocksByHeight := [(0, gBlk.hash)]
    chainHeight := 0
    lastBlockHash := some gBlk.hash
    sm :=
      { balances := [("A", 500)], validators := [], nonces := []
        chainHeight := 0, lastBlockHash := some gBlk.hash } }

/-- Height-1 block of the C1 scenario before its hash is filled in. -/
def b1Bare : Block :=
  { header :=
      { version := 1, previousHash := gBlk.hash
        merkleRoot := BlockchainService.calculateMerkleRoot cHash [txFunded, txBroke]
        timestamp := 2, height := 1, validatorAddress := "VAL1" }
    transactions := [txFunded, txBroke], hash := "", nonce := 0 }

/-- Height-1 block of the C1 scenario. -/
def b1c : Block :=
  { b1Bare with hash := BlockchainService.calculateBlockHash cHash b1Bare }

/-- The empty ledger state. -/
def stEmpty : BcState :=
  { blocks := [], blocksByHeight := [], chainHeight := 0, lastBlockHash := none
    sm := { balances := [], validators := [], nonces := []
            chainHeight := 0, lastBlockHash := none } }

/-- Genesis-shaped block with an arbitrary validator address (C5). -/
def gwBare : Block :=
  { header :=
      { version := 1, previousHash := zeroHash
        merkleRoot := BlockchainService.calculateMerkleRoot cHash []
        timestamp := 1, height := 0, validatorAddress := "ANYBODY" }
    transactions := [], hash := "", nonce := 0 }

/-- Same with its correct hash. -/
def gwBlk : Block :=
  { gwBare with hash := BlockchainService.calculateBlockHash cHash gwBare }

/-- The otherwise-identical structure at height 1 (hash recomputed). -/
def hw1Bare : Block :=
  { gwBare with header := { gwBare.header with height := 1 } }

/-- Same with its correct hash. -/
def hw1Blk : Block :=
  { hw1Bare with hash := BlockchainService.calculateBlockHash cHash hw1Bare }

/-- Account state with the 116-chuckram sender of the C2 example. -/
def stAlice116 : SmState :=
  { balances := [("alice", 116)], validators := [], nonces := []
    chainHeight := 0, lastBlockHash := none }

/-- Account state with only 100 for the same sender. -/
def stAlice100 : SmState :=
  { balances := [("alice", 100)], validators := [], nonces := []
    chainHeight := 0, lastBlockHash := none }

/-- The C2 example transfer: amount 100, fee 16. -/
def txAlice : Tx :=
  { id := "tx", txType := "TRANSFER", fromAddr := "alice", toAddr := "bob"
    amount := 100, fee := 16, timestamp := 0, nonce := 0, data := none }

/-- Mempool transaction whose fee is 2^53. -/
def mtxLow : Tx :=
  { id := "m1", txType := "TRANSFER", fromAddr := "A", toAddr := "B"
    amount := 1, fee := 9007199254740992, timestamp := 0, nonce := 0, data := none }

/-- Mempool transaction whose fee is 2^53 + 1. -/
def mtxHigh : Tx :=
  { id := "m2", txType := "TRANSFER", fromAddr := "A", toAddr := "B"
    amount := 1, fee := 9007199254740993, timestamp := 0, nonce := 0, data := none }

/-- Mempool holding the two transactions, lower exact fee first. -/
def mpBig : MpState :=
  { pendingTransactions := [("m1", mtxLow), ("m2", mtxHigh)] }

/-- Concrete network configuration for the C8 witness. -/
def cfg8 : NetworkConfig :=
  { port := 3000, maxPeers := 50, networkId := "chuckram-main", version := "1.0" }

/-- Handshake carrying a foreign network id. -/
def payload8 : HandshakePayload :=
  { version := "1.0", networkId := "other-net", chainHeight := 7, peerId := "peerX" }

/-- A p2p state with one established peer and connection. -/
def st8 : P2PState :=
  { peers := [("p0", { id := "p0", address := "ws://a:1", port := 1
                       lastSeen := 5, version := "1.0", chainHeight := 3 })]
    connections := [("p0", 11), ("temp_1", 12)] }

/-- Builder for the equal-power test validators. -/
def mkTestValidator (address vtype : String) (stake : Option Int) : Validator :=
  { address := address, vtype := vtype, stake := stake, votingPower := 1
    active := true, lastActiveBlock := 0, registeredAt := 0 }

/-- The four-validator engine of the consensus test suite (2 GOVERNMENT,
2 CITIZEN, equal power, 0.66 consensus, 50/50 targets). -/
def engine4 : Engine :=
  { config :=
      { minValidators := 4, maxValidators := 100, blockTime := 5000
        governmentValidatorRatio := 1/2, citizenValidatorRatio := 1/2
        requiredConsensus := 33/50, validatorRotationInterval := 100 }
    state :=
      { currentValidators :=
          [("GOV1", mkTestValidator "GOV1" "GOVERNMENT" none),
           ("GOV2", mkTestValidator "GOV2" "GOVERNMENT" none),
           ("CIT1", mkTestValidator "CIT1" "CITIZEN" (some 1000)),
           ("CIT2", mkTestValidator "CIT2" "CITIZEN" (some 1000))]
        pendingValidators := []
        lastRotationBlock := 0
        currentProposer := "CIT1"
        round := 0 }
    votes := []
    finalized := [] }

/-- The block voted on in the consensus test suite. -/
def blockB : Block :=
  { header :=
      { version := 1, previousHash := "0", merkleRoot := "0", timestamp := 10
        height := 1, validatorAddress := "GOV1" }
    transactions := [], hash := "block1", nonce := 0 }

/-- The fifth (citizen) validator candidate of the ratio test. -/
def cit3 : Validator := mkTestValidator "CIT3" "CITIZEN" (some 1000)

/-- The sixth (citizen) validator candidate of the ratio test. -/
def cit4 : Validator := mkTestValidator "CIT4" "CITIZEN" (some 1000)

/-- Signature stand-in for the executable consensus scenarios. -/
def signT (pk data : String) : String := String.append pk data

/-- The current validator of the C10 scenario (recently active). -/
def valCur : Validator :=
  { address := "VA", vtype := "GOVERNMENT", stake := none, votingPower := 1
    active := true, lastActiveBlock := 140, registeredAt := 0 }

/-- A stale pending validator staged under the same address. -/
def valStale : Validator :=
  { address := "VA", vtype := "GOVERNMENT", stake := none, votingPower := 1
    active := true, lastActiveBlock := 0, registeredAt := 0 }

/-- Engine in which the pending set shadows the only current validator
with a stale copy. -/
def engineShadow : Engine :=
  { config :=
      { minValidators := 1, maxValidators := 100, blockTime := 5000
        governmentValidatorRatio := 1, citizenValidatorRatio := 1
        requiredConsensus := 1, validatorRotationInterval := 100 }
    state :=
      { currentValidators := [("VA", valCur)]
        pendingValidators := [("VA", valStale)]
        lastRotationBlock := 0
        currentProposer := "VA"
        round := 0 }
    votes := []
    finalized := [] }

/-- A block at height 150 (far enough past the last rotation to trigger
one, and more than 100 blocks past a stale `lastActiveBlock`). -/
def block150 : Block :=
  { header :=
      { version := 1, previousHash := "0", merkleRoot := "0", timestamp := 20
        height := 150, validatorAddress := "VA" }
    transactions := [], hash := "block150", nonce := 0 }

/-- Address of the i-th validator in the 247-validator scenario; the
lengths differ, so the addresses are pairwise distinct. -/
def addr247 (i : Nat) : String := String.mk (List.replicate (i + 1) 'a')

/-- The 247 equal-power validators. -/
def val247 (i : Nat) : Validator :=
  { address := addr247 i, vtype := "CITIZEN", stake := none, votingPower := 1
    active := true, lastActiveBlock := 0, registeredAt := 0 }

/-- Engine with 247 current validators of power 1 and the 0.66 consensus
requirement. -/
def engine247 : Engine :=
  { config :=
      { minValidators := 4, maxValidators := 1000, blockTime := 5000
        governmentValidatorRatio := 1/2, citizenValidatorRatio := 1/2
        requiredConsensus := 33/50, validatorRotationInterval := 100 }
    state :=
      { currentValidators := (List.range 247).map (fun i => (addr247 i, val247 i))
        pendingValidators := []
        lastRotationBlock := 0
        currentProposer := ""
        round := 0 }
    votes := []
    finalized := [] }

/-- Number of GOVERNMENT validators in a validator map. -/
def govCountOf (l : List (String × Validator)) : Nat :=
  (l.filter (fun p => p.2.vtype = "GOVERNMENT")).length

/-- Number of non-GOVERNMENT (citizen) validators in a validator map. -/
def citCountOf (l : List (String × Validator)) : Nat :=
  (l.filter (fun p => ¬ (p.2.vtype = "GOVERNMENT"))).length

/-- Government count over current + pending + the candidate. -/
def candGovCount (e : Engine) (v : Validator) : Nat :=
  govCountOf e.state.currentValidators + govCountOf e.state.pendingValidators +
    (if v.vtype = "GOVERNMENT" then 1 else 0)

/-- Citizen count over current + pending + the candidate. -/
def candCitCount (e : Engine) (v : Validator) : Nat :=
  citCountOf e.state.currentValidators + citCountOf e.state.pendingValidators +
    (if v.vtype = "GOVERNMENT" then 0 else 1)

/-- Validator count over current + pending + the candidate. -/
def candTotal (e : Engine) (v : Validator) : Nat :=
  candGovCount e v + candCitCount e v

/-- The engine expected after staging a candidate into the pending set. -/
def stagePending (e : Engine) (v : Validator) : Engine :=
  { e with state := { e.state with
      pendingValidators := setA e.state.pendingValidators v.address v } }

/-- The four-validator engine after CIT3 has been staged. -/
def engine4p : Engine := stagePending engine4 cit3

section AssocLemmas

variable {κ : Type} {α : Type} [DecidableEq κ]

theorem getA_setA_self (m : List (κ × α)) (k : κ) (v : α) :
    getA (setA m k v) k = some v := by
  induction m with
  | nil => simp [setA, getA]
  | cons p rest ih =>
    by_cases h : p.1 = k
    · simp [setA, h, getA]
    · simp [setA, h, getA, ih]

theorem getA_setA_ne (m : List (κ × α)) {k k1 : κ} (v : α) (h : k1 ≠ k) :
    getA (setA m k v) k1 = getA m k1 := by
  induction m with
  | nil => simp [setA, getA, Ne.symm h]
  | cons p rest ih =>
    by_cases hp : p.1 = k
    · have hp1 : ¬ p.1 = k1 := fun hq => h (by rw [← hq, hp])
      simp only [setA, if_pos hp, getA, if_neg (Ne.symm h), if_neg hp1]
    · simp only [setA, if_neg hp, getA]
      by_cases hq : p.1 = k1
      · simp [hq]
      · simp [hq, ih]

theorem setA_eq_of_getA {m : List (κ × α)} {k : κ} {v : α}
    (h : getA m k = some v) : setA m k v = m := by
  induction m with
  | nil => simp [getA] at h
  | cons p rest ih =>
    rcases p with ⟨a, b⟩
    by_cases hp : a = k
    · simp only [getA, if_pos hp] at h
      simp only [Option.some.injEq] at h
      simp [setA, hp, h]
    · simp only [getA, if_neg hp] at h
      simp [setA, hp, ih h]

theorem setA_setA (m : List (κ × α)) (k : κ) (v w : α) :
    setA (setA m k v) k w = setA m k w := by
  induction m with
  | nil => simp [setA]
  | cons p rest ih =>
    by_cases hp : p.1 = k
    · simp [setA, hp]
    · simp [setA, hp, ih]

theorem getA_mem {m : List (κ × α)} {k : κ} {v : α}
    (h : getA m k = some v) : (k, v) ∈ m := by
  induction m with
  | nil => simp [getA] at h
  | cons p rest ih =>
    rcases p with ⟨a, b⟩
    by_cases hp : a = k
    · simp only [getA, if_pos hp] at h
      simp only [Option.some.injEq] at h
      subst hp
      subst h
      exact List.mem_cons_self _ _
    · simp only [getA, if_neg hp] at h
      exact List.mem_cons_of_mem _ (ih h)

theorem getA_isSome_of_mem_keys {m : List (κ × α)} {k : κ}
    (h : k ∈ m.map Prod.fst) : (getA m k).isSome := by
  induction m with
  | nil => simp at h
  | cons p rest ih =>
    by_cases hp : p.1 = k
    · simp [getA, hp]
    · have h1 : k ∈ p.1 :: rest.map Prod.fst := by
        rw [List.map_cons] at h
        exact h
      have h2 : k ∈ rest.map Prod.fst := by
        rcases List.mem_cons.1 h1 with h3 | h3
        · exact absurd h3.symm hp
        · exact h3
      simpa [getA, hp] using ih h2

theorem getA_eq_none_of_not_mem_keys {m : List (κ × α)} {k : κ}
    (h : k ∉ m.map Prod.fst) : getA m k = none := by
  induction m with
  | nil => rfl
  | cons p rest ih =>
    have h1 : ¬ p.1 = k := fun hq => h (by simp [hq])
    have h2 : k ∉ rest.map Prod.fst := fun hq => h (by simp [hq])
    simp [getA, h1, ih h2]

theorem keys_setA (m : List (κ × α)) (k : κ) (v : α) :
    (setA m k v).map Prod.fst =
      if k ∈ m.map Prod.fst then m.map Prod.fst
      else m.map Prod.fst ++ [k] := by
  induction m with
  | nil => simp [setA]
  | cons p rest ih =>
    by_cases hp : p.1 = k
    · simp [setA, hp]
    · by_cases hk : k ∈ rest.map Prod.fst
      · simp [setA, hp, ih, hk, Ne.symm hp]
      · simp [setA, hp, ih, hk, Ne.symm hp]

theorem keys_setA_nodup {m : List (κ × α)} (k : κ) (v : α)
    (h : (m.map Prod.fst).Nodup) : ((setA m k v).map Prod.fst).Nodup := by
  rw [keys_setA]
  by_cases hk : k ∈ m.map Prod.fst
  · simpa [hk] using h
  · simp [hk, List.nodup_append, h]

theorem keys_eraseA_sublist (m : List (κ × α)) (k : κ) :
    ((eraseA m k).map Prod.fst).Sublist (m.map Prod.fst) := by
  induction m with
  | nil => simp [eraseA]
  | cons p rest ih =>
    by_cases hp : p.1 = k
    · simp only [eraseA, if_pos hp, List.map_cons]
      exact List.sublist_cons_self _ _
    · simpa [eraseA, hp] using ih.cons₂ p.1

theorem keys_eraseA_nodup {m : List (κ × α)} (k : κ)
    (h : (m.map Prod.fst).Nodup) : ((eraseA m k).map Prod.fst).Nodup :=
  (keys_eraseA_sublist m k).nodup h

theorem getA_eraseA_self {m : List (κ × α)} (k : κ)
    (h : (m.map Prod.fst).Nodup) : getA (eraseA m k) k = none := by
  induction m with
  | nil => rfl
  | cons p rest ih =>
    simp only [List.map_cons, List.nodup_cons] at h
    by_cases hp : p.1 = k
    · simp only [eraseA, hp, if_pos rfl]
      exact getA_eq_none_of_not_mem_keys (hp ▸ h.1)
    · simp [eraseA, hp, getA, ih h.2]

theorem getA_filter {m : List (κ × α)} {k : κ} {v : α} {p : κ × α → Bool}
    (h : getA m k = some v) (hp : p (k, v) = true) :
    getA (m.filter p) k = some v := by
  induction m with
  | nil => simp [getA] at h
  | cons q rest ih =>
    rcases q with ⟨a, b⟩
    by_cases hq : a = k
    · simp only [getA, if_pos hq] at h
      simp only [Option.some.injEq] at h
      subst hq
      subst h
      simp [List.filter_cons, hp, getA]
    · simp only [getA, if_neg hq] at h
      by_cases hf : p (a, b)
      · simp [List.filter_cons, hf, getA, hq, ih h]
      · simp only [List.filter_cons]
        rw [if_neg hf]
        exact ih h

theorem getA_foldl_setA_ne {l : List (κ × α)} {k : κ}
    (h : ∀ q ∈ l, q.1 ≠ k) (m : List (κ × α)) :
    getA (l.foldl (fun cur q => setA cur q.1 q.2) m) k = getA m k := by
  induction l generalizing m with
  | nil => rfl
  | cons q rest ih =>
    simp only [List.foldl_cons]
    rw [ih (fun r hr => h r (List.mem_cons_of_mem _ hr))]
    exact getA_setA_ne m _ (Ne.symm (h q (List.mem_cons_self _ _)))

end AssocLemmas

/-- C2: applying a TRANSFER debits the sender by amount+fee after the
balance check (an insufficient balance is rejected with an error and no
effect), credits the recipient by the amount, and credits the reserved
system account by the fee. -/
theorem transfer_debits_credits : ∀ (st : SmState) (tx : Tx),
    tx.fromAddr ≠ tx.toAddr → tx.toAddr ≠ systemAddress →
    tx.fromAddr ≠ systemAddress → 0 ≤ tx.fee →
    ((StateManager.getBalance st tx.fromAddr < tx.amount + tx.fee →
        ∃ msg, StateManager.applyTransferTransaction st tx = Except.error msg) ∧
      (tx.amount + tx.fee ≤ StateManager.getBalance st tx.fromAddr →
        ∃ st1, StateManager.applyTransferTransaction st tx = Except.ok st1 ∧
          StateManager.getBalance st1 tx.fromAddr =
            StateManager.getBalance st tx.fromAddr - (tx.amount + tx.fee) ∧
          StateManager.getBalance st1 tx.toAddr =
            StateManager.getBalance st tx.toAddr + tx.amount ∧
          StateManager.getBalance st1 systemAddress =
            StateManager.getBalance st systemAddress + tx.fee)) := by
  intro st tx hft hts hfs hfee
  constructor
  · intro hlt
    refine ⟨"Insufficient balance", ?_⟩
    simp only [StateManager.applyTransferTransaction]
    rw [if_pos hlt]
  · intro hge
    have hnot : ¬ StateManager.getBalance st tx.fromAddr < tx.amount + tx.fee :=
      not_lt.2 hge
    simp only [StateManager.applyTransferTransaction, StateManager.getBalance,
      StateManager.setBalance] at hnot ⊢
    rw [if_neg hnot]
    by_cases hfe : tx.fee > 0
    · rw [if_pos hfe]
      refine ⟨_, rfl, ?_, ?_, ?_⟩
      · simp only [getA_setA_ne _ _ hfs, getA_setA_ne _ _ hft, getA_setA_self]
        simp
      · simp only [getA_setA_ne _ _ hts, getA_setA_self,
          getA_setA_ne _ _ (Ne.symm hft)]
        simp
      · simp only [getA_setA_self, getA_setA_ne _ _ (Ne.symm hts),
          getA_setA_ne _ _ (Ne.symm hfs)]
        simp
    · rw [if_neg hfe]
      have hfe0 : tx.fee = 0 := le_antisymm (not_lt.1 hfe) hfee
      refine ⟨_, rfl, ?_, ?_, ?_⟩
      · simp only [getA_setA_ne _ _ hft, getA_setA_self]
        simp
      · simp only [getA_setA_self, getA_setA_ne _ _ (Ne.symm hft)]
        simp
      · simp only [getA_setA_ne _ _ (Ne.symm hts), getA_setA_ne _ _ (Ne.symm hfs)]
        simp [hfe0]

/-- Witness for C2: with balance 116 the transfer of 100 with fee 16
leaves the sender at 0, the recipient at 100 and the system account at
16; with balance 100 it is rejected as insufficient. -/
theorem transfer_debits_credits_witness :
    (∃ st1, StateManager.applyTransferTransaction stAlice116 txAlice =
        Except.ok st1 ∧
      StateManager.getBalance st1 "alice" = 0 ∧
      StateManager.getBalance st1 "bob" = 100 ∧
      StateManager.getBalance st1 systemAddress = 16) ∧
    (∃ msg, StateManager.applyTransferTransaction stAlice100 txAlice =
        Except.error msg) := by
  constructor
  · obtain ⟨st1, heq, h1, h2, h3⟩ :=
      (transfer_debits_credits stAlice116 txAlice (by decide) (by decide)
        (by decide) (by decide)).2 (by decide)
    refine ⟨st1, heq, ?_, ?_, ?_⟩
    · have : StateManager.getBalance stAlice116 txAlice.fromAddr -
          (txAlice.amount + txAlice.fee) = 0 := by decide
      rw [show ("alice" : String) = txAlice.fromAddr from rfl, h1, this]
    · have : StateManager.getBalance stAlice116 txAlice.toAddr +
          txAlice.amount = 100 := by decide
      rw [show ("bob" : String) = txAlice.toAddr from rfl, h2, this]
    · have : StateManager.getBalance stAlice116 systemAddress +
          txAlice.fee = 16 := by decide
      rw [h3, this]
  · exact (transfer_debits_credits stAlice100 txAlice (by decide) (by decide)
      (by decide) (by decide)).1 (by decide)

/-- C1 (code bug): a block whose second transaction has an insufficient
sender is *not* rejected atomically: `addBlock` throws, yet the first
transaction's credit survives, the block stays indexed by hash, and the
chain height stays advanced — the ledger is not left unchanged. -/
theorem addBlock_partial_application :
    (BlockchainService.addBlock cHash st0c b1c).2 =
        Except.error "Insufficient balance" ∧
    StateManager.getBalance st0c.sm "B" = 0 ∧
    StateManager.getBalance (BlockchainService.addBlock cHash st0c b1c).1.sm "B" =
        100 ∧
    hasA (BlockchainService.addBlock cHash st0c b1c).1.blocks b1c.hash = true ∧
    (BlockchainService.addBlock cHash st0c b1c).1.chainHeight = 1 := by
  decide

/-- C5: a height-0 block with the all-zero previous hash and a correct
self hash validates as genesis whatever its validator address and
whatever the stored chain; a non-zero-height block never takes the
genesis path — it fails whenever the previous-height lookup fails or the
previous hash mismatches. -/
theorem validateBlock_genesis_exemption :
    ∀ (hashFn : String → String) (st : BcState) (b : Block),
    (b.header.height = 0 → b.hash ≠ "" →
      b.hash = BlockchainService.calculateBlockHash hashFn b →
      b.header.previousHash = zeroHash →
      BlockchainService.validateBlock hashFn st b = true) ∧
    (b.header.height ≠ 0 →
      BlockchainService.getBlockByHeight st (b.header.height - 1) = none →
      BlockchainService.validateBlock hashFn st b = false) ∧
    (∀ prev, b.header.height ≠ 0 →
      BlockchainService.getBlockByHeight st (b.header.height - 1) = some prev →
      prev.hash ≠ b.header.previousHash →
      BlockchainService.validateBlock hashFn st b = false) := by
  intro hashFn st b
  refine ⟨?_, ?_, ?_⟩
  · intro h0 hne hhash hprev
    simp only [BlockchainService.validateBlock]
    rw [if_neg hne, if_neg (by simp [← hhash]), if_pos h0]
    simp [BlockchainService.validateGenesisBlock, h0, hprev]
  · intro h0 hnone
    simp only [BlockchainService.validateBlock]
    by_cases hne : b.hash = ""
    · rw [if_pos hne]
    · rw [if_neg hne]
      by_cases hh : BlockchainService.calculateBlockHash hashFn b ≠ b.hash
      · rw [if_pos hh]
      · rw [if_neg hh, if_neg h0, hnone]
  · intro prev h0 hsome hmis
    simp only [BlockchainService.validateBlock]
    by_cases hne : b.hash = ""
    · rw [if_pos hne]
    · rw [if_neg hne]
      by_cases hh : BlockchainService.calculateBlockHash hashFn b ≠ b.hash
      · rw [if_pos hh]
      · rw [if_neg hh, if_neg h0]
        simp only [hsome]
        rw [if_pos hmis]

/-- Witness for C5: the genesis-shaped block with validator address
`"ANYBODY"` validates on the empty chain, and the otherwise-identical
structure at height 1 (hash recomputed) fails. -/
theorem validateBlock_genesis_exemption_witness :
    BlockchainService.validateBlock cHash stEmpty gwBlk = true ∧
    BlockchainService.validateBlock cHash stEmpty hw1Blk = false := by
  constructor
  · exact (validateBlock_genesis_exemption cHash stEmpty gwBlk).1
      (by decide) (by decide) (by decide) (by decide)
  · exact (validateBlock_genesis_exemption cHash stEmpty hw1Blk).2.1
      (by decide) (by decide)

/-- C6: `addBlock` is idempotent — when the block's hash is already
indexed it returns false and leaves the state untouched, and any call
that returns true leaves the hash indexed, so an immediate second call
with the identical block returns false and changes nothing. -/
theorem addBlock_idempotent :
    ∀ (hashFn : String → String) (st : BcState) (b : Block),
    (hasA st.blocks b.hash = true →
      BlockchainService.addBlock hashFn st b = (st, Except.ok false)) ∧
    (∀ st1, BlockchainService.addBlock hashFn st b = (st1, Except.ok true) →
      hasA st1.blocks b.hash = true ∧
      BlockchainService.addBlock hashFn st1 b = (st1, Except.ok false)) := by
  intro hashFn st b
  have main : ∀ st1, BlockchainService.addBlock hashFn st b = (st1, Except.ok true) →
      hasA st1.blocks b.hash = true := by
    intro st1 h
    simp only [BlockchainService.addBlock] at h
    by_cases h0 : hasA st.blocks b.hash
    · rw [if_pos h0] at h
      simp at h
    · rw [if_neg h0] at h
      by_cases h1 : BlockchainService.validateBlock hashFn st b
      · rw [if_neg (by simpa using h1)] at h
        by_cases h2 : st.chainHeight < b.header.height
        · rw [if_pos h2] at h
          rcases hsm : StateManager.applyBlock st.sm b with ⟨sm1, err⟩
          rw [hsm] at h
          cases err with
          | some e => simp at h
          | none =>
            simp only [Prod.mk.injEq] at h
            rw [← h.1]
            simp [hasA, getA_setA_self]
        · rw [if_neg h2] at h
          simp only [Prod.mk.injEq] at h
          rw [← h.1]
          simp [hasA, getA_setA_self]
      · rw [if_pos (by simpa using h1)] at h
        simp at h
  have first : ∀ (st2 : BcState), hasA st2.blocks b.hash = true →
      BlockchainService.addBlock hashFn st2 b = (st2, Except.ok false) := by
    intro st2 h2
    simp only [BlockchainService.addBlock]
    rw [if_pos h2]
  exact ⟨first st, fun st1 h => ⟨main st1 h, first st1 (main st1 h)⟩⟩

/-- Witness for C6: adding the genesis block to the empty ledger
succeeds, and repeating the identical call returns false with the state
unchanged. -/
theorem addBlock_idempotent_witness :
    BlockchainService.addBlock cHash
        (BlockchainService.addBlock cHash stEmpty gBlk).1 gBlk =
      ((BlockchainService.addBlock cHash stEmpty gBlk).1, Except.ok false) ∧
    (BlockchainService.addBlock cHash stEmpty gBlk).2 = Except.ok true := by
  have h : BlockchainService.addBlock cHash stEmpty gBlk =
      ((BlockchainService.addBlock cHash stEmpty gBlk).1, Except.ok true) := by
    decide
  exact ⟨((addBlock_idempotent cHash stEmpty gBlk).2 _ h).2, by decide⟩

/-- C8: a handshake whose network id differs from the node's closes the
connection with code 1002 and performs no other action; the peer and
connection maps are returned exactly as they were. -/
theorem handleHandshake_mismatch_closes :
    ∀ (cfg : NetworkConfig) (now : Nat) (st : P2PState)
      (payload : HandshakePayload) (tempPeerId : String) (ws : WsConn),
    payload.networkId ≠ cfg.networkId →
    P2PNetwork.handleHandshake cfg now st payload tempPeerId ws =
      (st, [P2PAction.close 1002 "Invalid network ID"]) := by
  intro cfg now st payload tempPeerId ws h
  simp only [P2PNetwork.handleHandshake]
  rw [if_pos h]

/-- Witness for C8: a concrete mismatched handshake against a node with
one established peer leaves both maps untouched. -/
theorem handleHandshake_mismatch_closes_witness :
    P2PNetwork.handleHandshake cfg8 5 st8 payload8 "temp_1" { url := none } =
      (st8, [P2PAction.close 1002 "Invalid network ID"]) :=
  handleHandshake_mismatch_closes cfg8 5 st8 payload8 "temp_1" { url := none }
    (by decide)

theorem jsNumberOfNat_two_pow_53 :
    MempoolService.jsNumberOfNat 9007199254740992 = 9007199254740992 := by
  have hlog : Nat.log2 9007199254740992 = 53 := by
    rw [Nat.log2_eq_log_two]
    exact Nat.log_eq_of_pow_le_of_lt_pow (by norm_num) (by norm_num)
  simp only [MempoolService.jsNumberOfNat, hlog]
  norm_num

theorem jsNumberOfNat_two_pow_53_succ :
    MempoolService.jsNumberOfNat 9007199254740993 = 9007199254740992 := by
  have hlog : Nat.log2 9007199254740993 = 53 := by
    rw [Nat.log2_eq_log_two]
    exact Nat.log_eq_of_pow_le_of_lt_pow (by norm_num) (by norm_num)
  simp only [MempoolService.jsNumberOfNat, hlog]
  norm_num

/-- C7 (code bug): with fees 2^53 and 2^53 + 1 in the pool (lower exact
fee inserted first), `Number()` collapses both fees to the same double,
the stable sort keeps insertion order, and `getTransactionsForBlock 2`
returns the transactions with *increasing* exact fees — not the
non-increasing order the specification requires. -/
theorem getTransactionsForBlock_misorders_exact_fees :
    MempoolService.getTransactionsForBlock mpBig 2 = [mtxLow, mtxHigh] ∧
    mtxLow.fee < mtxHigh.fee := by
  constructor
  · have h1 : MempoolService.jsNumberOfInt mtxLow.fee = 9007199254740992 := by
      show MempoolService.jsNumberOfInt (Int.ofNat 9007199254740992) = _
      simp [MempoolService.jsNumberOfInt, jsNumberOfNat_two_pow_53]
    have h2 : MempoolService.jsNumberOfInt mtxHigh.fee = 9007199254740992 := by
      show MempoolService.jsNumberOfInt (Int.ofNat 9007199254740993) = _
      simp [MempoolService.jsNumberOfInt, jsNumberOfNat_two_pow_53_succ]
    simp [MempoolService.getTransactionsForBlock,
      MempoolService.getAllTransactions, mpBig, List.insertionSort,
      List.orderedInsert, MempoolService.feeOrd, h1, h2]
  · decide

theorem countTypes_foldl (l : List (String × Validator)) (g c : Nat) :
    l.foldl (fun acc p =>
        if p.2.vtype = "GOVERNMENT" then (acc.1 + 1, acc.2)
        else (acc.1, acc.2 + 1)) (g, c) =
      (g + govCountOf l, c + citCountOf l) := by
  induction l generalizing g c with
  | nil => simp [govCountOf, citCountOf]
  | cons p rest ih =>
    by_cases hp : p.2.vtype = "GOVERNMENT"
    · simp only [List.foldl_cons, if_pos hp, ih]
      simp [govCountOf, citCountOf, List.filter_cons, hp, Prod.ext_iff]
      omega
    · simp only [List.foldl_cons, if_neg hp, ih]
      simp [govCountOf, citCountOf, List.filter_cons, hp, Prod.ext_iff]
      omega

theorem addValidator_characterization (e : Engine) (v : Validator)
    (hlt : e.state.currentValidators.length + e.state.pendingValidators.length <
      e.config.maxValidators) :
    ConsensusEngine.addValidator e v =
      (if v.vtype = "GOVERNMENT" ∧ (candGovCount e v : ℚ) / (candTotal e v : ℚ) >
          e.config.governmentValidatorRatio + 1/10 then (e, false)
       else if v.vtype = "CITIZEN" ∧ (candCitCount e v : ℚ) / (candTotal e v : ℚ) >
          e.config.citizenValidatorRatio + 1/10 then (e, false)
       else (stagePending e v, true)) := by
  simp only [ConsensusEngine.addValidator, stagePending]
  rw [if_neg (not_le.2 hlt), countTypes_foldl, countTypes_foldl]
  by_cases hv : v.vtype = "GOVERNMENT"
  · simp [candGovCount, candCitCount, candTotal, hv]
  · simp [candGovCount, candCitCount, candTotal, hv]

/-- C4: `addValidator` rejects at the configured maximum of current plus
pending validators; below it, it computes the candidate's type ratio over
current + pending + candidate and rejects when that ratio exceeds the
type's target by more than 10 percentage points, and otherwise stages the
candidate into the pending set. -/
theorem addValidator_ratio_admission :
    ∀ (e : Engine) (v : Validator),
    (e.config.maxValidators ≤
        e.state.currentValidators.length + e.state.pendingValidators.length →
      ConsensusEngine.addValidator e v = (e, false)) ∧
    (e.state.currentValidators.length + e.state.pendingValidators.length <
        e.config.maxValidators →
      (v.vtype = "GOVERNMENT" →
        ((candGovCount e v : ℚ) / (candTotal e v : ℚ) >
            e.config.governmentValidatorRatio + 1/10 →
          ConsensusEngine.addValidator e v = (e, false)) ∧
        (¬ ((candGovCount e v : ℚ) / (candTotal e v : ℚ) >
            e.config.governmentValidatorRatio + 1/10) →
          ConsensusEngine.addValidator e v = (stagePending e v, true))) ∧
      (v.vtype = "CITIZEN" →
        ((candCitCount e v : ℚ) / (candTotal e v : ℚ) >
            e.config.citizenValidatorRatio + 1/10 →
          ConsensusEngine.addValidator e v = (e, false)) ∧
        (¬ ((candCitCount e v : ℚ) / (candTotal e v : ℚ) >
            e.config.citizenValidatorRatio + 1/10) →
          ConsensusEngine.addValidator e v = (stagePending e v, true)))) := by
  intro e v
  constructor
  · intro h
    simp only [ConsensusEngine.addValidator]
    rw [if_pos h]
  · intro hlt
    constructor
    · intro hv
      constructor
      · intro hr
        rw [addValidator_characterization e v hlt, if_pos ⟨hv, hr⟩]
      · intro hnr
        rw [addValidator_characterization e v hlt,
          if_neg (fun hc => hnr hc.2),
          if_neg (fun hc => by rw [hv] at hc; exact absurd hc.1 (by decide))]
    · intro hv
      constructor
      · intro hr
        rw [addValidator_characterization e v hlt,
          if_neg (fun hc => by rw [hv] at hc; exact absurd hc.1 (by decide)),
          if_pos ⟨hv, hr⟩]
      · intro hnr
        rw [addValidator_characterization e v hlt,
          if_neg (fun hc => by rw [hv] at hc; exact absurd hc.1 (by decide)),
          if_neg (fun hc => hnr hc.2)]

/-- Witness for C4: from the exact 50/50 four-validator set with target
ratio 0.5, the citizen CIT3 (ratio 3/5 ≤ 0.6) is staged, and from the
resulting engine the citizen CIT4 (ratio 4/6 > 0.6) is rejected. -/
theorem addValidator_ratio_admission_witness :
    ConsensusEngine.addValidator engine4 cit3 = (engine4p, true) ∧
    ConsensusEngine.addValidator engine4p cit4 = (engine4p, false) := by
  constructor
  · exact (((addValidator_ratio_admission engine4 cit3).2 (by decide)).2
      (by decide)).2 (by
        simp [candCitCount, candGovCount, candTotal, engine4, cit3,
          govCountOf, citCountOf, mkTestValidator]
        norm_num)
  · exact (((addValidator_ratio_admission engine4p cit4).2 (by decide)).2
      (by decide)).1 (by
        simp [candCitCount, candGovCount, candTotal, engine4p, engine4, cit3,
          cit4, stagePending, setA, govCountOf, citCountOf, mkTestValidator]
        norm_num)

theorem getA_map_snd {κ α β : Type} [DecidableEq κ] (f : α → β)
    (l : List (κ × α)) (k : κ) :
    getA (l.map (fun p => (p.1, f p.2))) k = (getA l k).map f := by
  induction l with
  | nil => rfl
  | cons p rest ih =>
    by_cases hp : p.1 = k
    · simp [getA, hp]
    · simp [getA, hp, ih]

theorem getA_none_forall {κ α : Type} [DecidableEq κ] {m : List (κ × α)} {k : κ}
    (h : getA m k = none) : ∀ q ∈ m, q.1 ≠ k := by
  intro q hq hk
  have : k ∈ m.map Prod.fst := List.mem_map.2 ⟨q, hq, hk⟩
  have := getA_isSome_of_mem_keys this
  rw [h] at this
  simp at this

theorem filter_addr_length {cvs : List (String × Validator)} {voters : List String}
    (hkeys : (cvs.map Prod.fst).Nodup)
    (hcoh : ∀ p ∈ cvs, p.2.address = p.1)
    (hvn : voters.Nodup) (hsub : ∀ x ∈ voters, x ∈ cvs.map Prod.fst) :
    (cvs.filter (fun p => p.2.address ∈ voters)).length = voters.length := by
  have h1 : cvs.filter (fun p => p.2.address ∈ voters) =
      cvs.filter (fun p => p.1 ∈ voters) :=
    List.filter_congr (fun p hp => by rw [hcoh p hp])
  have h2 : (cvs.map Prod.fst).filter (fun x => x ∈ voters) =
      (cvs.filter (fun p => p.1 ∈ voters)).map Prod.fst := by
    rw [List.filter_map]
    rfl
  have h3 : ((cvs.map Prod.fst).filter (fun x => x ∈ voters)).Perm voters := by
    rw [List.perm_ext_iff_of_nodup (List.Nodup.filter _ hkeys) hvn]
    intro x
    simp only [List.mem_filter, decide_eq_true_eq]
    exact ⟨fun h => h.2, fun h => ⟨hsub x h, h⟩⟩
  calc (cvs.filter (fun p => p.2.address ∈ voters)).length
      = (cvs.filter (fun p => p.1 ∈ voters)).length := by rw [h1]
    _ = ((cvs.map Prod.fst).filter (fun x => x ∈ voters)).length := by
        rw [h2, List.length_map]
    _ = voters.length := h3.length_eq

theorem powers_foldl (voters : List String) (cvs : List (String × Validator)) :
    ∀ (t c : ℚ), (∀ p ∈ cvs, p.2.votingPower = 1) →
    cvs.foldl (fun (acc : ℚ × ℚ) p =>
        (acc.1 + p.2.votingPower,
          if p.2.address ∈ voters then acc.2 + p.2.votingPower else acc.2))
      (t, c) =
    (t + cvs.length,
      c + ((cvs.filter (fun p => p.2.address ∈ voters)).length : ℚ)) := by
  induction cvs with
  | nil => intro t c _; simp
  | cons p rest ih =>
    intro t c h
    have hp1 : p.2.votingPower = 1 := h p (List.mem_cons_self _ _)
    by_cases hm : p.2.address ∈ voters
    · simp only [List.foldl_cons, if_pos hm, hp1]
      rw [ih (t + 1) (c + 1) (fun q hq => h q (List.mem_cons_of_mem _ hq))]
      simp only [List.filter_cons, decide_eq_true_eq, if_pos hm,
        List.length_cons, Prod.ext_iff]
      constructor <;> push_cast <;> ring
    · simp only [List.foldl_cons, if_neg hm, hp1]
      rw [ih (t + 1) c (fun q hq => h q (List.mem_cons_of_mem _ hq))]
      simp only [List.filter_cons, decide_eq_true_eq, if_neg hm,
        List.length_cons, Prod.ext_iff]
      refine ⟨?_, trivial⟩
      push_cast
      ring

theorem ratio_iff (len N : Nat) (hN : 0 < N) :
    ((len : ℚ) / (N : ℚ) ≥ 33/50 - 1/10000) ↔ (6599 * N ≤ 10000 * len) := by
  have hNq : (0 : ℚ) < (N : ℚ) := by exact_mod_cast hN
  rw [ge_iff_le, show (33/50 - 1/10000 : ℚ) = 6599/10000 by norm_num,
    div_le_div_iff (by norm_num) hNq]
  constructor
  · intro h
    have h2 : (6599 * N : ℚ) ≤ 10000 * len := by linarith
    exact_mod_cast h2
  · intro h
    have h2 : (6599 * N : ℚ) ≤ 10000 * len := by exact_mod_cast h
    linarith

theorem hasConsensus_count (e : Engine) (bh : String) (vl : List Vote)
    (hkeys : (ConsensusEngine.keysOf e).Nodup)
    (hcoh : ∀ p ∈ e.state.currentValidators,
      p.2.votingPower = 1 ∧ p.2.active = true ∧ p.2.address = p.1)
    (hreq : e.config.requiredConsensus = 33/50)
    (hN : 0 < (ConsensusEngine.keysOf e).length)
    (hget : getA e.votes bh = some vl)
    (hvn : (vl.map Vote.validatorAddress).Nodup)
    (hsub : ∀ x ∈ vl.map Vote.validatorAddress, x ∈ ConsensusEngine.keysOf e) :
    ConsensusEngine.hasConsensus e bh =
      decide (6599 * (ConsensusEngine.keysOf e).length ≤ 10000 * vl.length) := by
  have hlen : e.state.currentValidators.length =
      (ConsensusEngine.keysOf e).length :=
    (List.length_map _ _).symm
  simp only [ConsensusEngine.hasConsensus, hget]
  by_cases h0 : vl.length = 0
  · rw [if_pos h0, h0]
    symm
    rw [decide_eq_false_iff_not]
    omega
  · rw [if_neg h0]
    rw [powers_foldl (vl.map Vote.validatorAddress) e.state.currentValidators
      0 0 (fun p hp => (hcoh p hp).1)]
    have hcol : ((e.state.currentValidators.filter
        (fun p => p.2.address ∈ vl.map Vote.validatorAddress)).length : ℚ) =
        (vl.length : ℚ) := by
      rw [filter_addr_length hkeys (fun p hp => (hcoh p hp).2.2) hvn hsub,
        List.length_map]
    have hN0 : ¬ ((0 : ℚ) + (e.state.currentValidators.length : ℚ) = 0) := by
      rw [zero_add]
      rw [hlen]
      exact_mod_cast Nat.pos_iff_ne_zero.1 hN
    rw [if_neg hN0]
    simp only [zero_add, hcol, hreq, hlen]
    rw [decide_eq_decide]
    exact ratio_iff vl.length (ConsensusEngine.keysOf e).length hN

theorem selectNextProposer_some (e : Engine)
    (hact : ∀ p ∈ e.state.currentValidators, p.2.active = true)
    (hN : 0 < e.state.currentValidators.length) :
    (ConsensusEngine.selectNextProposer e).2 = none ∧
    ((ConsensusEngine.selectNextProposer e).1).config = e.config ∧
    ((ConsensusEngine.selectNextProposer e).1).state.currentValidators =
      e.state.currentValidators ∧
    ((ConsensusEngine.selectNextProposer e).1).state.pendingValidators =
      e.state.pendingValidators ∧
    ((ConsensusEngine.selectNextProposer e).1).finalized = e.finalized ∧
    ((ConsensusEngine.selectNextProposer e).1).votes = e.votes := by
  have hfe : (e.state.currentValidators.map Prod.snd).filter
      (fun v => v.active) = e.state.currentValidators.map Prod.snd :=
    List.filter_eq_self.2 (fun v hv => by
      rcases List.mem_map.1 hv with ⟨p, hp, rfl⟩
      simpa using hact p hp)
  have hlen : (List.insertionSort (fun a b : Validator => a.address ≤ b.address)
      ((e.state.currentValidators.map Prod.snd).filter
        (fun v => v.active))).length = e.state.currentValidators.length := by
    rw [(List.perm_insertionSort _ _).length_eq, hfe, List.length_map]
  simp only [ConsensusEngine.selectNextProposer]
  rw [if_neg (by rw [hlen]; omega)]
  exact ⟨rfl, rfl, rfl, rfl, rfl, rfl⟩

theorem selectNextProposer_eq (E e3 : Engine) (err : Option String)
    (hact : ∀ p ∈ E.state.currentValidators, p.2.active = true)
    (hN : 0 < E.state.currentValidators.length)
    (heq : ConsensusEngine.selectNextProposer E = (e3, err)) :
    err = none ∧ e3.config = E.config ∧
    e3.state.currentValidators = E.state.currentValidators ∧
    e3.state.pendingValidators = E.state.pendingValidators ∧
    e3.finalized = E.finalized ∧ e3.votes = E.votes := by
  have h := selectNextProposer_some E hact hN
  rw [heq] at h
  exact h

theorem finalizeBlock_good (e : Engine) (block : Block)
    (hcoh : ∀ p ∈ e.state.currentValidators,
      p.2.votingPower = 1 ∧ p.2.active = true ∧ p.2.address = p.1)
    (hpend : e.state.pendingValidators = [])
    (hN : 0 < e.state.currentValidators.length) :
    (ConsensusEngine.finalizeBlock e block).2 = none ∧
    ((ConsensusEngine.finalizeBlock e block).1).config = e.config ∧
    ((ConsensusEngine.finalizeBlock e block).1).state.currentValidators =
      e.state.currentValidators.map
        (fun p => (p.1, { p.2 with lastActiveBlock := block.header.height })) ∧
    ((ConsensusEngine.finalizeBlock e block).1).state.pendingValidators = [] ∧
    ((ConsensusEngine.finalizeBlock e block).1).finalized =
      e.finalized ++ [block.hash] ∧
    ((ConsensusEngine.finalizeBlock e block).1).votes =
      eraseA e.votes block.hash := by
  have hfilt : (e.state.currentValidators.map
        (fun p => (p.1, { p.2 with lastActiveBlock := block.header.height }))).filter
      (fun p => ¬ ((100 : Int) <
        (block.header.height : Int) - (p.2.lastActiveBlock : Int))) =
      e.state.currentValidators.map
        (fun p => (p.1, { p.2 with lastActiveBlock := block.header.height })) := by
    apply List.filter_eq_self.2
    intro p hp
    rcases List.mem_map.1 hp with ⟨q, _, rfl⟩
    simp
  simp only [ConsensusEngine.finalizeBlock, ConsensusEngine.rotateValidators]
  by_cases hrot : (e.config.validatorRotationInterval : Int) ≤
      (block.header.height : Int) - (e.state.lastRotationBlock : Int)
  · rw [if_pos hrot]
    rw [hpend]
    simp only [List.foldl_nil, hfilt]
    split
    next e3 err heq =>
      have h := selectNextProposer_eq _ _ _
        (by
          intro p hp
          rcases List.mem_map.1 hp with ⟨q, hq, rfl⟩
          exact (hcoh q hq).2.1)
        (by simpa using hN) heq
      exact absurd h.1 (by simp)
    next e3 heq =>
      have h := selectNextProposer_eq _ _ _
        (by
          intro p hp
          rcases List.mem_map.1 hp with ⟨q, hq, rfl⟩
          exact (hcoh q hq).2.1)
        (by simpa using hN) heq
      exact ⟨rfl, h.2.1, h.2.2.1, h.2.2.2.1, by simp [h.2.2.2.2.1],
        by simp [h.2.2.2.2.2]⟩
  · rw [if_neg hrot]
    split
    next e3 err heq =>
      have h := selectNextProposer_eq _ _ _
        (by
          intro p hp
          rcases List.mem_map.1 hp with ⟨q, hq, rfl⟩
          exact (hcoh q hq).2.1)
        (by simpa using hN) heq
      exact absurd h.1 (by simp)
    next e3 heq =>
      have h := selectNextProposer_eq _ _ _
        (by
          intro p hp
          rcases List.mem_map.1 hp with ⟨q, hq, rfl⟩
          exact (hcoh q hq).2.1)
        (by simpa using hN) heq
      refine ⟨rfl, h.2.1, ?_, ?_, by simp [h.2.2.2.2.1], by simp [h.2.2.2.2.2]⟩
      · rw [h.2.2.1]
      · rw [h.2.2.2.1, hpend]

theorem any_addr_eq_false {vl : List Vote} {a : String}
    (h : a ∉ vl.map Vote.validatorAddress) :
    (vl.any (fun v => v.validatorAddress = a)) = false := by
  rw [List.any_eq_false]
  intro v hv
  simp only [decide_eq_true_eq]
  exact fun heq => h (List.mem_map.2 ⟨v, hv, heq⟩)

theorem any_addr_eq_true {vl : List Vote} {a : String}
    (h : a ∈ vl.map Vote.validatorAddress) :
    (vl.any (fun v => v.validatorAddress = a)) = true := by
  rcases List.mem_map.1 h with ⟨v, hv, heq⟩
  exact List.any_eq_true.2 ⟨v, hv, by simp [heq]⟩

theorem voteOnBlock_records (sign : String → String → String) (now : Nat)
    (e : Engine) (block : Block) (a pk : String) (val : Validator)
    (vl : List Vote)
    (hv : getA e.state.currentValidators a = some val)
    (hact : val.active = true)
    (hvl : ConsensusEngine.recordedVotes e block.hash = vl)
    (hnew : a ∉ vl.map Vote.validatorAddress)
    (hcons : ConsensusEngine.hasConsensus
      { e with votes := (setA e.votes block.hash
          (vl ++ [ConsensusEngine.mkVote sign now block a pk])) } block.hash =
      false) :
    ConsensusEngine.voteOnBlock sign now e block a pk =
      ({ e with votes := (setA e.votes block.hash
          (vl ++ [ConsensusEngine.mkVote sign now block a pk])) },
        Except.ok (ConsensusEngine.mkVote sign now block a pk)) := by
  simp only [ConsensusEngine.voteOnBlock, hv]
  rw [if_neg (by simp [hact])]
  rcases h0 : getA e.votes block.hash with _ | w
  · have hvl0 : vl = [] := by
      rw [← hvl]
      simp [ConsensusEngine.recordedVotes, h0]
    subst hvl0
    rw [List.nil_append] at hcons
    simp only [hasA, h0, Option.isSome_none, Bool.false_eq_true, if_false,
      getA_setA_self, Option.getD_some, List.any_nil, List.nil_append,
      setA_setA]
    rw [if_neg]
    intro hc
    rw [hcons] at hc
    exact absurd hc.1 (by simp)
  · have hvlw : vl = w := by
      rw [← hvl]
      simp [ConsensusEngine.recordedVotes, h0]
    subst hvlw
    simp only [hasA, h0, Option.isSome_some, if_true, Option.getD_some,
      any_addr_eq_false hnew, Bool.false_eq_true, if_false]
    rw [if_neg]
    intro hc
    rw [hcons] at hc
    exact absurd hc.1 (by simp)

theorem voteOnBlock_finalize_path (sign : String → String → String) (now : Nat)
    (e : Engine) (block : Block) (a pk : String) (val : Validator)
    (vl : List Vote)
    (hv : getA e.state.currentValidators a = some val)
    (hact : val.active = true)
    (hvl : ConsensusEngine.recordedVotes e block.hash = vl)
    (hnew : a ∉ vl.map Vote.validatorAddress)
    (hcons : ConsensusEngine.hasConsensus
      { e with votes := (setA e.votes block.hash
          (vl ++ [ConsensusEngine.mkVote sign now block a pk])) } block.hash =
      true) :
    ConsensusEngine.voteOnBlock sign now e block a pk =
      (match ConsensusEngine.finalizeBlock
          { e with votes := (setA e.votes block.hash
            (vl ++ [ConsensusEngine.mkVote sign now block a pk])) } block with
       | (e2, some err) => (e2, Except.error err)
       | (e2, none) => (e2, Except.ok (ConsensusEngine.mkVote sign now block a pk))) := by
  simp only [ConsensusEngine.voteOnBlock, hv]
  rw [if_neg (by simp [hact])]
  rcases h0 : getA e.votes block.hash with _ | w
  · have hvl0 : vl = [] := by
      rw [← hvl]
      simp [ConsensusEngine.recordedVotes, h0]
    subst hvl0
    rw [List.nil_append] at hcons
    simp only [hasA, h0, Option.isSome_none, Bool.false_eq_true, if_false,
      getA_setA_self, Option.getD_some, List.any_nil, List.nil_append,
      setA_setA]
    rw [if_pos ⟨hcons, by simp [getA_setA_self]⟩]
  · have hvlw : vl = w := by
      rw [← hvl]
      simp [ConsensusEngine.recordedVotes, h0]
    subst hvlw
    simp only [hasA, h0, Option.isSome_some, if_true, Option.getD_some,
      any_addr_eq_false hnew, Bool.false_eq_true, if_false]
    rw [if_pos ⟨hcons, by simp [getA_setA_self]⟩]

theorem voteOnBlock_repeat (sign : String → String → String) (now : Nat)
    (e : Engine) (block : Block) (a pk : String) (val : Validator)
    (vl : List Vote)
    (hv : getA e.state.currentValidators a = some val)
    (hact : val.active = true)
    (hget : getA e.votes block.hash = some vl)
    (hold : a ∈ vl.map Vote.validatorAddress)
    (hcons : ConsensusEngine.hasConsensus e block.hash = false) :
    ConsensusEngine.voteOnBlock sign now e block a pk =
      (e, Except.ok (ConsensusEngine.mkVote sign now block a pk)) := by
  simp only [ConsensusEngine.voteOnBlock, hv]
  rw [if_neg (by simp [hact])]
  simp only [hasA, hget, Option.isSome_some, if_true, Option.getD_some,
    any_addr_eq_true hold, if_true]
  rw [setA_eq_of_getA hget]
  rw [show ({ e with votes := e.votes } : Engine) = e from rfl]
  rw [if_neg]
  intro hc
  rw [hcons] at hc
  exact absurd hc.1 (by simp)

theorem runVotes_below (sign : String → String → String) (now : Nat)
    (pk : String) (block : Block) :
    ∀ (addrs : List String) (e : Engine),
    ConsensusEngine.GoodEngine e →
    0 < (ConsensusEngine.keysOf e).length →
    ((ConsensusEngine.recordedVotes e block.hash).map Vote.validatorAddress).Nodup →
    (∀ x ∈ (ConsensusEngine.recordedVotes e block.hash).map Vote.validatorAddress,
      x ∈ ConsensusEngine.keysOf e) →
    addrs.Nodup →
    (∀ a ∈ addrs, a ∈ ConsensusEngine.keysOf e) →
    (∀ a ∈ addrs,
      a ∉ (ConsensusEngine.recordedVotes e block.hash).map Vote.validatorAddress) →
    10000 * ((ConsensusEngine.recordedVotes e block.hash).length + addrs.length) <
      6599 * (ConsensusEngine.keysOf e).length →
    (ConsensusEngine.runVotes sign now e block addrs pk).config = e.config ∧
    (ConsensusEngine.runVotes sign now e block addrs pk).state = e.state ∧
    (ConsensusEngine.runVotes sign now e block addrs pk).finalized = e.finalized ∧
    ((ConsensusEngine.runVotes sign now e block addrs pk).votes.map Prod.fst).Nodup ∧
    ConsensusEngine.recordedVotes
        (ConsensusEngine.runVotes sign now e block addrs pk) block.hash =
      ConsensusEngine.recordedVotes e block.hash ++
        addrs.map (fun x => ConsensusEngine.mkVote sign now block x pk) := by
  intro addrs
  induction addrs with
  | nil =>
    intro e hg _ _ _ _ _ _ _
    exact ⟨rfl, rfl, rfl, hg.votesKeysNodup, by simp [ConsensusEngine.runVotes]⟩
  | cons a rest ih =>
    intro e hg hN hrn hrsub hnd hsub hdis harith
    have ha : a ∈ ConsensusEngine.keysOf e := hsub a (List.mem_cons_self _ _)
    rcases hveq : getA e.state.currentValidators a with _ | val
    · have := getA_isSome_of_mem_keys ha
      rw [hveq] at this
      simp at this
    have hcoh3 := hg.coherent _ (getA_mem hveq)
    have hanew : a ∉ (ConsensusEngine.recordedVotes e block.hash).map
        Vote.validatorAddress := hdis a (List.mem_cons_self _ _)
    have haddr1 : (((ConsensusEngine.recordedVotes e block.hash) ++
        [ConsensusEngine.mkVote sign now block a pk]).map
          Vote.validatorAddress).Nodup := by
      simp only [List.map_append, List.map_cons, List.map_nil,
        ConsensusEngine.mkVote]
      rw [List.nodup_append]
      refine ⟨hrn, List.nodup_singleton _, ?_⟩
      intro x hx
      simp only [List.mem_singleton]
      intro heq
      rw [heq] at hx
      exact hanew hx
    have haddr2 : ∀ x ∈ ((ConsensusEngine.recordedVotes e block.hash) ++
        [ConsensusEngine.mkVote sign now block a pk]).map Vote.validatorAddress,
        x ∈ ConsensusEngine.keysOf e := by
      intro x hx
      simp only [List.map_append, List.map_cons, List.map_nil,
        List.mem_append, List.mem_cons] at hx
      rcases hx with hx | hx
      · exact hrsub x hx
      · simp at hx
        rw [hx]
        exact ha
    have hconsf : ConsensusEngine.hasConsensus
        { e with votes := (setA e.votes block.hash
          ((ConsensusEngine.recordedVotes e block.hash) ++
            [ConsensusEngine.mkVote sign now block a pk])) } block.hash =
        false := by
      rw [hasConsensus_count
        ({ e with votes := (setA e.votes block.hash
          ((ConsensusEngine.recordedVotes e block.hash) ++
            [ConsensusEngine.mkVote sign now block a pk])) })
        block.hash _ hg.keysNodup hg.coherent hg.required hN
        (getA_setA_self _ _ _) haddr1 haddr2]
      rw [decide_eq_false_iff_not]
      simp only [ConsensusEngine.keysOf, List.length_append, List.length_cons,
        List.length_nil] at harith ⊢
      omega
    have hstep := voteOnBlock_records sign now e block a pk val
      (ConsensusEngine.recordedVotes e block.hash) hveq hcoh3.2.1 rfl hanew hconsf
    have hrun : ConsensusEngine.runVotes sign now e block (a :: rest) pk =
        ConsensusEngine.runVotes sign now
          { e with votes := (setA e.votes block.hash
            ((ConsensusEngine.recordedVotes e block.hash) ++
              [ConsensusEngine.mkVote sign now block a pk])) } block rest pk := by
      simp only [ConsensusEngine.runVotes, List.foldl_cons, hstep]
    rw [hrun]
    have hg1 : ConsensusEngine.GoodEngine
        { e with votes := (setA e.votes block.hash
          ((ConsensusEngine.recordedVotes e block.hash) ++
            [ConsensusEngine.mkVote sign now block a pk])) } :=
      ⟨hg.keysNodup, hg.coherent, hg.required, hg.pendingNil,
        keys_setA_nodup _ _ hg.votesKeysNodup⟩
    have hrec1 : ConsensusEngine.recordedVotes
        { e with votes := (setA e.votes block.hash
          ((ConsensusEngine.recordedVotes e block.hash) ++
            [ConsensusEngine.mkVote sign now block a pk])) } block.hash =
        (ConsensusEngine.recordedVotes e block.hash) ++
          [ConsensusEngine.mkVote sign now block a pk] := by
      simp [ConsensusEngine.recordedVotes, getA_setA_self]
    have hres := ih _ hg1 hN (by rw [hrec1]; exact haddr1)
      (by rw [hrec1]; exact haddr2)
      (List.Nodup.of_cons hnd)
      (fun x hx => hsub x (List.mem_cons_of_mem _ hx))
      (by
        intro x hx
        rw [hrec1]
        simp only [List.map_append, List.map_cons, List.map_nil,
          List.mem_append, List.mem_cons]
        rintro (hmem | hmem)
        · exact hdis x (List.mem_cons_of_mem _ hx) hmem
        · simp at hmem
          rw [hmem] at hx
          exact (List.nodup_cons.1 hnd).1 hx)
      (by
        rw [hrec1]
        simp only [ConsensusEngine.keysOf, List.length_append,
          List.length_cons, List.length_nil] at harith ⊢
        omega)
    refine ⟨hres.1, hres.2.1, hres.2.2.1, hres.2.2.2.1, ?_⟩
    rw [hres.2.2.2.2, hrec1]
    simp

theorem runVotes_reaches (sign : String → String → String) (now : Nat)
    (pk : String) (block : Block) (e : Engine) (as : List String) (a : String)
    (hg : ConsensusEngine.GoodEngine e)
    (hN : 0 < (ConsensusEngine.keysOf e).length)
    (hclean : getA e.votes block.hash = none)
    (hnd : (as ++ [a]).Nodup)
    (hsub : ∀ x ∈ as ++ [a], x ∈ ConsensusEngine.keysOf e)
    (hlow : 10000 * as.length < 6599 * (ConsensusEngine.keysOf e).length)
    (hhigh : 6599 * (ConsensusEngine.keysOf e).length ≤ 10000 * (as.length + 1)) :
    (ConsensusEngine.runVotes sign now e block (as ++ [a]) pk).finalized =
      e.finalized ++ [block.hash] ∧
    ConsensusEngine.GoodEngine
      (ConsensusEngine.runVotes sign now e block (as ++ [a]) pk) ∧
    ConsensusEngine.keysOf (ConsensusEngine.runVotes sign now e block (as ++ [a]) pk) =
      ConsensusEngine.keysOf e ∧
    getA (ConsensusEngine.runVotes sign now e block (as ++ [a]) pk).votes
      block.hash = none := by
  have hrec0 : ConsensusEngine.recordedVotes e block.hash = [] := by
    simp [ConsensusEngine.recordedVotes, hclean]
  have hnd3 := List.nodup_append.1 hnd
  have hanotin : a ∉ as := fun hmem => hnd3.2.2 hmem (List.mem_singleton_self a)
  have hb := runVotes_below sign now pk block as e hg hN
    (by rw [hrec0]; simp) (by rw [hrec0]; simp) hnd3.1
    (fun x hx => hsub x (List.mem_append_left _ hx))
    (by rw [hrec0]; simp)
    (by rw [hrec0]; simpa using hlow)
  set r1 := ConsensusEngine.runVotes sign now e block as pk with hr1def
  have hsplit : ConsensusEngine.runVotes sign now e block (as ++ [a]) pk =
      (ConsensusEngine.voteOnBlock sign now r1 block a pk).1 := by
    rw [hr1def]
    simp only [ConsensusEngine.runVotes, List.foldl_append, List.foldl_cons,
      List.foldl_nil]
  have hk1 : ConsensusEngine.keysOf r1 = ConsensusEngine.keysOf e :=
    congrArg (fun s : ConsensusState => List.map Prod.fst s.currentValidators)
      hb.2.1
  have hrec1 : ConsensusEngine.recordedVotes r1 block.hash =
      as.map (fun x => ConsensusEngine.mkVote sign now block x pk) := by
    rw [hb.2.2.2.2, hrec0]
    simp
  have haddr : (ConsensusEngine.recordedVotes r1 block.hash).map
      Vote.validatorAddress = as := by
    rw [hrec1, List.map_map]
    have hcomp : (Vote.validatorAddress ∘
        fun x => ConsensusEngine.mkVote sign now block x pk) = id := by
      funext x
      rfl
    rw [hcomp, List.map_id]
  have hlenrec : (ConsensusEngine.recordedVotes r1 block.hash).length =
      as.length := by
    rw [hrec1, List.length_map]
  have hgr1 : ConsensusEngine.GoodEngine r1 := by
    refine ⟨?_, ?_, ?_, ?_, hb.2.2.2.1⟩
    · rw [hk1]
      exact hg.keysNodup
    · intro p hp
      refine hg.coherent p ?_
      rw [← hb.2.1]
      exact hp
    · rw [hb.1]
      exact hg.required
    · rw [hb.2.1]
      exact hg.pendingNil
  have hamem : a ∈ ConsensusEngine.keysOf e :=
    hsub a (List.mem_append_right _ (List.mem_singleton_self a))
  rcases hveq : getA e.state.currentValidators a with _ | val
  · have := getA_isSome_of_mem_keys hamem
    rw [hveq] at this
    simp at this
  have hcoh3 := hg.coherent _ (getA_mem hveq)
  have hveqr : getA r1.state.currentValidators a = some val := by
    rw [hb.2.1, hveq]
  have hvaddr1 : (((ConsensusEngine.recordedVotes r1 block.hash) ++
      [ConsensusEngine.mkVote sign now block a pk]).map
      Vote.validatorAddress).Nodup := by
    simp only [List.map_append, haddr, ConsensusEngine.mkVote,
      List.map_cons, List.map_nil]
    exact hnd
  have hvaddr2 : ∀ x ∈ ((ConsensusEngine.recordedVotes r1 block.hash) ++
      [ConsensusEngine.mkVote sign now block a pk]).map Vote.validatorAddress,
      x ∈ ConsensusEngine.keysOf
        { r1 with votes := (setA r1.votes block.hash
          ((ConsensusEngine.recordedVotes r1 block.hash) ++
            [ConsensusEngine.mkVote sign now block a pk])) } := by
    intro x hx
    show x ∈ ConsensusEngine.keysOf r1
    rw [hk1]
    simp only [List.map_append, haddr, ConsensusEngine.mkVote,
      List.map_cons, List.map_nil] at hx
    exact hsub x hx
  have hconsT : ConsensusEngine.hasConsensus
      { r1 with votes := (setA r1.votes block.hash
        ((ConsensusEngine.recordedVotes r1 block.hash) ++
          [ConsensusEngine.mkVote sign now block a pk])) } block.hash =
      true := by
    rw [hasConsensus_count
      ({ r1 with votes := (setA r1.votes block.hash
        ((ConsensusEngine.recordedVotes r1 block.hash) ++
          [ConsensusEngine.mkVote sign now block a pk])) })
      block.hash _ hgr1.keysNodup hgr1.coherent hgr1.required
      (by show 0 < (ConsensusEngine.keysOf r1).length; rw [hk1]; exact hN)
      (getA_setA_self _ _ _) hvaddr1 hvaddr2]
    rw [decide_eq_true_eq]
    show 6599 * (ConsensusEngine.keysOf r1).length ≤ _
    rw [hk1, List.length_append, hlenrec]
    simp only [List.length_cons, List.length_nil]
    omega
  have hstep := voteOnBlock_finalize_path sign now r1 block a pk val
    (ConsensusEngine.recordedVotes r1 block.hash) hveqr hcoh3.2.1 rfl
    (by rw [haddr]; exact hanotin) hconsT
  have hgfb := finalizeBlock_good
    { r1 with votes := (setA r1.votes block.hash
      ((ConsensusEngine.recordedVotes r1 block.hash) ++
        [ConsensusEngine.mkVote sign now block a pk])) } block
    hgr1.coherent hgr1.pendingNil
    (by
      show 0 < r1.state.currentValidators.length
      have h1 : (ConsensusEngine.keysOf r1).length =
          r1.state.currentValidators.length := List.length_map _ _
      rw [hk1] at h1
      omega)
  rcases hfb : ConsensusEngine.finalizeBlock
      { r1 with votes := (setA r1.votes block.hash
        ((ConsensusEngine.recordedVotes r1 block.hash) ++
          [ConsensusEngine.mkVote sign now block a pk])) } block
    with ⟨e2, err⟩
  rw [hfb] at hgfb hstep
  have herr : err = none := hgfb.1
  subst herr
  rw [hsplit, hstep]
  have hcv2 : e2.state.currentValidators =
      r1.state.currentValidators.map
        (fun p => (p.1, { p.2 with lastActiveBlock := block.header.height })) :=
    hgfb.2.2.1
  have hkeys2 : ConsensusEngine.keysOf e2 = ConsensusEngine.keysOf e := by
    show List.map Prod.fst e2.state.currentValidators = _
    rw [hcv2, List.map_map]
    have hcomp : (Prod.fst ∘ fun p : String × Validator =>
        (p.1, { p.2 with lastActiveBlock := block.header.height })) = Prod.fst := by
      funext p
      rfl
    rw [hcomp]
    exact hk1
  have hvotes2 : e2.votes = eraseA (setA r1.votes block.hash
      ((ConsensusEngine.recordedVotes r1 block.hash) ++
        [ConsensusEngine.mkVote sign now block a pk])) block.hash :=
    hgfb.2.2.2.2.2
  have hsetnodup : ((setA r1.votes block.hash
      ((ConsensusEngine.recordedVotes r1 block.hash) ++
        [ConsensusEngine.mkVote sign now block a pk])).map Prod.fst).Nodup :=
    keys_setA_nodup _ _ hb.2.2.2.1
  refine ⟨?_, ?_, hkeys2, ?_⟩
  · rw [hgfb.2.2.2.2.1]
    show r1.finalized ++ [block.hash] = e.finalized ++ [block.hash]
    rw [hb.2.2.1]
  · refine ⟨?_, ?_, ?_, hgfb.2.2.2.1, ?_⟩
    · show (ConsensusEngine.keysOf e2).Nodup
      rw [hkeys2]
      exact hg.keysNodup
    · intro p hp
      rw [hcv2] at hp
      rcases List.mem_map.1 hp with ⟨q, hq, rfl⟩
      have hco := hgr1.coherent q hq
      exact ⟨hco.1, hco.2.1, hco.2.2⟩
    · have hcfg : e2.config = r1.config := hgfb.2.1
      rw [hcfg, hb.1]
      exact hg.required
    · rw [hvotes2]
      exact keys_eraseA_nodup _ hsetnodup
  · rw [hvotes2]
    exact getA_eraseA_self _ hsetnodup

/-- C3 (amended): for current validators of equal voting power 1 and
requiredConsensus = 0.66, a sequence of voteOnBlock calls by distinct
current validators triggers finalization exactly upon the k-th distinct
vote where k is the least count with k/N ≥ 0.66 − 0.0001 (the code
compares the ratio against requiredConsensus − ε with ε = 0.0001), i.e.
with 10000·k ≥ 6599·N, and never after fewer distinct voters; a repeated
vote from an address that already voted leaves the engine unchanged, so
it never increases the collected voting power.  (For N = 4 the threshold
is 3, matching ⌈0.66·N⌉; the two thresholds differ for some N, see the
counterexample.) -/
theorem voteOnBlock_epsilon_threshold :
    ∀ (sign : String → String → String) (now : Nat) (pk : String)
      (block : Block) (e : Engine),
    ConsensusEngine.GoodEngine e →
    0 < (ConsensusEngine.keysOf e).length →
    ((∀ (addrs : List String), getA e.votes block.hash = none →
        addrs.Nodup → (∀ x ∈ addrs, x ∈ ConsensusEngine.keysOf e) →
        10000 * addrs.length < 6599 * (ConsensusEngine.keysOf e).length →
        (ConsensusEngine.runVotes sign now e block addrs pk).finalized =
          e.finalized) ∧
      (∀ (as : List String) (a : String), getA e.votes block.hash = none →
        (as ++ [a]).Nodup → (∀ x ∈ as ++ [a], x ∈ ConsensusEngine.keysOf e) →
        10000 * as.length < 6599 * (ConsensusEngine.keysOf e).length →
        6599 * (ConsensusEngine.keysOf e).length ≤ 10000 * (as.length + 1) →
        (ConsensusEngine.runVotes sign now e block (as ++ [a]) pk).finalized =
          e.finalized ++ [block.hash]) ∧
      (∀ (a : String) (vl : List Vote) (val : Validator),
        getA e.votes block.hash = some vl →
        getA e.state.currentValidators a = some val →
        (vl.map Vote.validatorAddress).Nodup →
        (∀ x ∈ vl.map Vote.validatorAddress, x ∈ ConsensusEngine.keysOf e) →
        a ∈ vl.map Vote.validatorAddress →
        10000 * vl.length < 6599 * (ConsensusEngine.keysOf e).length →
        ConsensusEngine.voteOnBlock sign now e block a pk =
          (e, Except.ok (ConsensusEngine.mkVote sign now block a pk)))) := by
  intro sign now pk block e hg hN
  refine ⟨?_, ?_, ?_⟩
  · intro addrs hclean hnd hsub harith
    have hrec0 : ConsensusEngine.recordedVotes e block.hash = [] := by
      simp [ConsensusEngine.recordedVotes, hclean]
    exact (runVotes_below sign now pk block addrs e hg hN
      (by rw [hrec0]; simp) (by rw [hrec0]; simp) hnd hsub
      (by rw [hrec0]; simp) (by rw [hrec0]; simpa using harith)).2.2.1
  · intro as a hclean hnd hsub hlow hhigh
    exact (runVotes_reaches sign now pk block e as a hg hN hclean hnd hsub
      hlow hhigh).1
  · intro a vl val hget hval hvn hvsub hmem harith
    have hact : val.active = true := (hg.coherent _ (getA_mem hval)).2.1
    have hcons : ConsensusEngine.hasConsensus e block.hash = false := by
      rw [hasConsensus_count e block.hash vl hg.keysNodup hg.coherent
        hg.required hN hget hvn hvsub]
      rw [decide_eq_false_iff_not]
      omega
    exact voteOnBlock_repeat sign now e block a pk val vl hval hact hget
      hmem hcons

theorem goodEngine4 : ConsensusEngine.GoodEngine engine4 := by
  refine ⟨by decide, ?_, rfl, rfl, by simp [engine4]⟩
  intro p hp
  fin_cases hp <;> exact ⟨rfl, rfl, rfl⟩

/-- Witness for C3: on the four-validator engine (threshold 3), the votes
of GOV1 and GOV2 do not finalize, and the third distinct vote (CIT1)
does. -/
theorem voteOnBlock_epsilon_threshold_witness :
    (ConsensusEngine.runVotes signT 0 engine4 blockB
        ["GOV1", "GOV2"] "pk").finalized = [] ∧
    (ConsensusEngine.runVotes signT 0 engine4 blockB
        ["GOV1", "GOV2", "CIT1"] "pk").finalized = [blockB.hash] := by
  constructor
  · exact (voteOnBlock_epsilon_threshold signT 0 "pk" blockB engine4
      goodEngine4 (by decide)).1 ["GOV1", "GOV2"] rfl (by decide) (by decide)
      (by decide)
  · exact (voteOnBlock_epsilon_threshold signT 0 "pk" blockB engine4
      goodEngine4 (by decide)).2.1 ["GOV1", "GOV2"] "CIT1" rfl (by decide)
      (by decide) (by decide) (by decide)

theorem addr247_injective : Function.Injective addr247 := by
  intro i j h
  have hdata := congrArg String.data h
  simp only [addr247] at hdata
  have hlen := congrArg List.length hdata
  simp only [List.length_replicate] at hlen
  omega

theorem keysOf_engine247 :
    ConsensusEngine.keysOf engine247 = (List.range 247).map addr247 := by
  show ((List.range 247).map (fun i => (addr247 i, val247 i))).map Prod.fst = _
  rw [List.map_map]
  have hcomp : (Prod.fst ∘ fun i => (addr247 i, val247 i)) = addr247 := by
    funext i
    rfl
  rw [hcomp]

theorem goodEngine247 : ConsensusEngine.GoodEngine engine247 := by
  refine ⟨?_, ?_, rfl, rfl, by simp [engine247]⟩
  · rw [keysOf_engine247]
    exact (List.nodup_range 247).map addr247_injective
  · intro p hp
    rcases List.mem_map.1 hp with ⟨i, _, rfl⟩
    exact ⟨rfl, rfl, rfl⟩

theorem keysOf_engine247_length : (ConsensusEngine.keysOf engine247).length = 247 := by
  rw [keysOf_engine247, List.length_map, List.length_range]

/-- C3 (counterexample): with N = 247 equal-power validators and
requiredConsensus = 0.66, the 163-rd distinct validator vote already
finalizes the block, although 163 < 0.66·247 (= 163.02), i.e. 163 is
*fewer* than the ⌈0.66·N⌉ = 164 distinct voters the claim requires for
finalization — the ε = 0.0001 slack in the code moves the threshold. -/
theorem voteOnBlock_finalizes_below_ceil_threshold :
    (ConsensusEngine.runVotes signT 0 engine247 blockB
        ((List.range 163).map addr247) "pk").finalized = [blockB.hash] ∧
    ((List.range 163).map addr247).Nodup ∧
    ((List.range 163).map addr247).length = 163 ∧
    (∀ x ∈ (List.range 163).map addr247, x ∈ ConsensusEngine.keysOf engine247) ∧
    (ConsensusEngine.keysOf engine247).length = 247 ∧
    (163 : ℚ) < 33/50 * 247 := by
  have hmemkeys : ∀ x ∈ (List.range 163).map addr247,
      x ∈ ConsensusEngine.keysOf engine247 := by
    intro x hx
    rcases List.mem_map.1 hx with ⟨i, hi, rfl⟩
    rw [keysOf_engine247]
    exact List.mem_map.2 ⟨i, List.mem_range.2 (by
      have := List.mem_range.1 hi
      omega), rfl⟩
  have hnodup : ((List.range 163).map addr247).Nodup :=
    (List.nodup_range 163).map addr247_injective
  have hsplit : (List.range 163).map addr247 =
      ((List.range 162).map addr247) ++ [addr247 162] := by
    rw [show (163 : Nat) = 162 + 1 from rfl, List.range_succ, List.map_append]
    rfl
  refine ⟨?_, hnodup, by simp, hmemkeys, keysOf_engine247_length, by norm_num⟩
  rw [hsplit]
  have hr := runVotes_reaches signT 0 "pk" blockB engine247
    ((List.range 162).map addr247) (addr247 162) goodEngine247
    (by rw [keysOf_engine247_length]; omega) rfl
    (by rw [← hsplit]; exact hnodup)
    (by rw [← hsplit]; exact hmemkeys)
    (by rw [keysOf_engine247_length]; simp [List.length_map, List.length_range])
    (by rw [keysOf_engine247_length]; simp [List.length_map, List.length_range])
  rw [hr.1]
  rfl

/-- C9 (code bug): finalization is not terminal for a block hash.  After
GOV1, GOV2, CIT1 finalize the block (votes discarded), the same three
validators voting again re-accumulate votes for the same hash and trigger
a *second* finalization: the callback is invoked twice.  The source's
`votes.has(block.hash)` guard is vacuous because the entry is re-created
two lines above it. -/
theorem voteOnBlock_double_finalization :
    (ConsensusEngine.runVotes signT 0 engine4 blockB
        ["GOV1", "GOV2", "CIT1", "GOV1", "GOV2", "CIT1"] "pk").finalized =
      [blockB.hash, blockB.hash] := by
  have hcompose :
      ConsensusEngine.runVotes signT 0 engine4 blockB
        ["GOV1", "GOV2", "CIT1", "GOV1", "GOV2", "CIT1"] "pk" =
      ConsensusEngine.runVotes signT 0
        (ConsensusEngine.runVotes signT 0 engine4 blockB
          (["GOV1", "GOV2"] ++ ["CIT1"]) "pk") blockB
        (["GOV1", "GOV2"] ++ ["CIT1"]) "pk" := by
    simp only [ConsensusEngine.runVotes, ← List.foldl_append]
    rfl
  have hr1 := runVotes_reaches signT 0 "pk" blockB engine4 ["GOV1", "GOV2"]
    "CIT1" goodEngine4 (by decide) rfl (by decide) (by decide) (by decide)
    (by decide)
  have hk1len : (ConsensusEngine.keysOf
      (ConsensusEngine.runVotes signT 0 engine4 blockB
        (["GOV1", "GOV2"] ++ ["CIT1"]) "pk")).length =
      (ConsensusEngine.keysOf engine4).length := by
    rw [hr1.2.2.1]
  have hr2 := runVotes_reaches signT 0 "pk" blockB
    (ConsensusEngine.runVotes signT 0 engine4 blockB
      (["GOV1", "GOV2"] ++ ["CIT1"]) "pk")
    ["GOV1", "GOV2"] "CIT1" hr1.2.1
    (by rw [hk1len]; decide) hr1.2.2.2 (by decide)
    (by rw [hr1.2.2.1]; decide)
    (by rw [hk1len]; decide) (by rw [hk1len]; decide)
  rw [hcompose, hr2.1, hr1.1]
  rfl

theorem selectNextProposer_cv (E : Engine) :
    ((ConsensusEngine.selectNextProposer E).1).state.currentValidators =
      E.state.currentValidators := by
  simp only [ConsensusEngine.selectNextProposer]
  split
  · rfl
  · rfl

theorem finalizeBlock_cv (e : Engine) (block : Block) :
    ((ConsensusEngine.finalizeBlock e block).1).state.currentValidators =
      (if (e.config.validatorRotationInterval : Int) ≤
          (block.header.height : Int) - (e.state.lastRotationBlock : Int) then
        ((e.state.pendingValidators.foldl (fun cur q => setA cur q.1 q.2)
          (e.state.currentValidators.map
            (fun p => (p.1, { p.2 with lastActiveBlock := block.header.height })))).filter
          (fun p => ¬ ((100 : Int) <
            (block.header.height : Int) - (p.2.lastActiveBlock : Int))))
      else
        e.state.currentValidators.map
          (fun p => (p.1, { p.2 with lastActiveBlock := block.header.height }))) := by
  simp only [ConsensusEngine.finalizeBlock, ConsensusEngine.rotateValidators]
  by_cases hrot : (e.config.validatorRotationInterval : Int) ≤
      (block.header.height : Int) - (e.state.lastRotationBlock : Int)
  · rw [if_pos hrot, if_pos hrot]
    split
    next e3 err heq =>
      have := congrArg (fun p : Engine × Option String =>
        p.1.state.currentValidators) heq
      simp only at this
      rw [← this, selectNextProposer_cv]
    next e3 heq =>
      have := congrArg (fun p : Engine × Option String =>
        p.1.state.currentValidators) heq
      simp only at this
      show e3.state.currentValidators = _
      rw [← this, selectNextProposer_cv]
  · rw [if_neg hrot, if_neg hrot]
    split
    next e3 err heq =>
      have := congrArg (fun p : Engine × Option String =>
        p.1.state.currentValidators) heq
      simp only at this
      rw [← this, selectNextProposer_cv]
    next e3 heq =>
      have := congrArg (fun p : Engine × Option String =>
        p.1.state.currentValidators) heq
      simp only at this
      show e3.state.currentValidators = _
      rw [← this, selectNextProposer_cv]

/-- C10 (amended): `finalizeBlock` never removes a previously current
validator whose address is not also staged in the pending set — it
stamps `lastActiveBlock` with the finalized height on every current
validator before rotating, so the retained entry can never satisfy the
staleness-eviction condition.  (A promoted *pending* validator with a
stale `lastActiveBlock` — including one that overwrites a current entry
of the same address — can, however, be evicted in the same rotation; see
the counterexample.) -/
theorem finalizeBlock_retains_unshadowed_current :
    ∀ (e : Engine) (block : Block) (a : String),
    getA e.state.pendingValidators a = none →
    (getA e.state.currentValidators a).isSome = true →
    (getA ((ConsensusEngine.finalizeBlock e block).1).state.currentValidators
      a).isSome = true := by
  intro e block a hpnone hcsome
  rcases hveq : getA e.state.currentValidators a with _ | val
  · rw [hveq] at hcsome
    simp at hcsome
  have hstamp : getA (e.state.currentValidators.map
      (fun p => (p.1, { p.2 with lastActiveBlock := block.header.height }))) a =
      some { val with lastActiveBlock := block.header.height } := by
    have h3 := getA_map_snd
      (fun v : Validator => { v with lastActiveBlock := block.header.height })
      e.state.currentValidators a
    rw [hveq] at h3
    exact h3
  rw [finalizeBlock_cv]
  by_cases hrot : (e.config.validatorRotationInterval : Int) ≤
      (block.header.height : Int) - (e.state.lastRotationBlock : Int)
  · rw [if_pos hrot]
    have hpne : ∀ q ∈ e.state.pendingValidators, q.1 ≠ a :=
      getA_none_forall hpnone
    have hfold : getA (e.state.pendingValidators.foldl
        (fun cur q => setA cur q.1 q.2)
        (e.state.currentValidators.map
          (fun p => (p.1, { p.2 with lastActiveBlock := block.header.height }))))
        a = some { val with lastActiveBlock := block.header.height } := by
      rw [getA_foldl_setA_ne hpne]
      exact hstamp
    rw [getA_filter hfold (by simp)]
    rfl
  · rw [if_neg hrot, hstamp]
    rfl

/-- Witness for C10: on the four-validator engine (no pending
validators), GOV1 is still a current validator after finalization. -/
theorem finalizeBlock_retains_unshadowed_current_witness :
    getA engine4.state.pendingValidators "GOV1" = none ∧
    (getA engine4.state.currentValidators "GOV1").isSome = true ∧
    (getA ((ConsensusEngine.finalizeBlock engine4 blockB).1).state.currentValidators
      "GOV1").isSome = true := by
  refine ⟨rfl, by decide, ?_⟩
  exact finalizeBlock_retains_unshadowed_current engine4 blockB "GOV1" rfl
    (by decide)

/-- C10 (counterexample): the claim that `finalizeBlock` never removes a
current validator — a rotation only promoting pending validators — fails
when the pending set shadows a current address with a stale copy: the
promotion overwrites the freshly stamped entry, the staleness condition
fires for the overwritten value, and the previously current validator
"VA" is evicted, leaving the current set empty. -/
theorem finalizeBlock_evicts_shadowed_current :
    engineShadow.state.currentValidators.map Prod.fst = ["VA"] ∧
    engineShadow.state.pendingValidators.map Prod.fst = ["VA"] ∧
    ((ConsensusEngine.finalizeBlock engineShadow block150).1).state.currentValidators.map
      Prod.fst = ([] : List String) := by
  refine ⟨rfl, rfl, ?_⟩
  decide
